import Mathlib

/-!
Verification of the simulation core of the RTS prototype (script.js, the
final/most complete version of the source).

World coordinates are modelled as exact rationals (idealizing JS doubles);
the A* g/f-scores, which the source stores as floating-point numbers with
an `Infinity` default, are modelled as `WithTop Real` values.  JS number
semantics with NaN/Infinity, needed for the projectile claims, are modelled
by a dedicated type further below.
-/

namespace RTS

/-- TILE_SIZE constant of the source (world units per grid tile). -/
def TILE_SIZE : ℚ := 32

/-- An obstacle: a tile-aligned world rectangle identified by its top-left
corner, as stored in `game.obstacles`. -/
structure Obstacle where
  x : ℚ
  y : ℚ
deriving DecidableEq

/-- Static data the pathfinder reads: the canvas size (fixing the grid
dimensions) and the obstacle list. -/
structure Config where
  canvasWidth : ℚ
  canvasHeight : ℚ
  obstacles : List Obstacle
deriving DecidableEq

/-- Grid cell coordinates (gx, gy). -/
abbrev Cell := ℤ × ℤ

/-- A waypoint in world coordinates. -/
abbrev Point := ℚ × ℚ

/-- gridWidth = ceil(canvas.width / TILE_SIZE). -/
def Config.gridWidth (cfg : Config) : ℤ := ⌈cfg.canvasWidth / TILE_SIZE⌉

/-- gridHeight = ceil(canvas.height / TILE_SIZE). -/
def Config.gridHeight (cfg : Config) : ℤ := ⌈cfg.canvasHeight / TILE_SIZE⌉

/-- AStar.isBlocked: cells outside the grid and cells whose world position
carries an obstacle are blocked. -/
def isBlocked (cfg : Config) (g : Cell) : Bool :=
  if g.1 < 0 ∨ g.2 < 0 ∨ cfg.gridWidth ≤ g.1 ∨ cfg.gridHeight ≤ g.2 then true
  else cfg.obstacles.any fun ob =>
    decide (ob.x = (g.1 : ℚ) * TILE_SIZE) && decide (ob.y = (g.2 : ℚ) * TILE_SIZE)

/-- World point to grid cell: Math.floor of coordinate / TILE_SIZE. -/
def tileOf (x y : ℚ) : Cell := (⌊x / TILE_SIZE⌋, ⌊y / TILE_SIZE⌋)

/-- Center of a grid cell in world coordinates. -/
def tileCenter (c : Cell) : Point :=
  ((c.1 : ℚ) * TILE_SIZE + TILE_SIZE / 2, (c.2 : ℚ) * TILE_SIZE + TILE_SIZE / 2)

/-- AStar.heuristic: Euclidean distance between grid cells. -/
noncomputable def heuristic (a b : Cell) : ℝ :=
  Real.sqrt ((((a.1 - b.1 : ℤ) : ℝ)) ^ 2 + (((a.2 - b.2 : ℤ) : ℝ)) ^ 2)

/-- lineSegmentsIntersect of the source.  The source divides by the
denominator unconditionally; when it is zero JS produces Infinity or NaN for
uA/uB and the 0..1 range checks are then false, so a zero denominator means
no intersection is reported. -/
def lineSegmentsIntersect (x1 y1 x2 y2 x3 y3 x4 y4 : ℚ) : Bool :=
  let den := (y4 - y3) * (x2 - x1) - (x4 - x3) * (y2 - y1)
  if den = 0 then false
  else
    let uA := ((x4 - x3) * (y1 - y3) - (y4 - y3) * (x1 - x3)) / den
    let uB := ((x2 - x1) * (y1 - y3) - (y2 - y1) * (x1 - x3)) / den
    decide (0 ≤ uA) && decide (uA ≤ 1) && decide (0 ≤ uB) && decide (uB ≤ 1)

/-- lineIntersectsAABB of the source: an endpoint inside the obstacle box, or
the segment crossing one of its four edges. -/
def lineIntersectsAABB (x1 y1 x2 y2 : ℚ) (ob : Obstacle) : Bool :=
  if (decide (ob.x ≤ x1) && decide (x1 ≤ ob.x + TILE_SIZE) &&
      decide (ob.y ≤ y1) && decide (y1 ≤ ob.y + TILE_SIZE)) ||
     (decide (ob.x ≤ x2) && decide (x2 ≤ ob.x + TILE_SIZE) &&
      decide (ob.y ≤ y2) && decide (y2 ≤ ob.y + TILE_SIZE)) then true
  else
    lineSegmentsIntersect x1 y1 x2 y2 ob.x ob.y (ob.x + TILE_SIZE) ob.y ||
    lineSegmentsIntersect x1 y1 x2 y2 (ob.x + TILE_SIZE) ob.y (ob.x + TILE_SIZE) (ob.y + TILE_SIZE) ||
    lineSegmentsIntersect x1 y1 x2 y2 ob.x (ob.y + TILE_SIZE) (ob.x + TILE_SIZE) (ob.y + TILE_SIZE) ||
    lineSegmentsIntersect x1 y1 x2 y2 ob.x ob.y ob.x (ob.y + TILE_SIZE)

/-- The obstacle scan inside smoothPath: whether the segment between two
waypoints intersects any obstacle box. -/
def segmentBlockedBy (obstacles : List Obstacle) (p q : Point) : Bool :=
  obstacles.any fun ob => lineIntersectsAABB p.1 p.2 q.1 q.2 ob

/-- Inner while-loop of smoothPath: starting at nextIndex, keep advancing
while the segment from the last kept waypoint to rawPath[nextIndex] is
obstacle-free; on the first blocked segment step back one and stop. -/
def findSkipIndex (obstacles : List Obstacle) (startPoint : Point)
    (rawPath : List Point) (nextIndex : ℕ) : ℕ :=
  if h : nextIndex < rawPath.length then
    if segmentBlockedBy obstacles startPoint (rawPath.get ⟨nextIndex, h⟩) then nextIndex - 1
    else findSkipIndex obstacles startPoint rawPath (nextIndex + 1)
  else nextIndex
termination_by rawPath.length - nextIndex

/-- The clamp at the end of the inner smoothPath loop: an index that ran past
the end of rawPath is replaced by the last valid index. -/
def cappedIndex (len n0 : ℕ) : ℕ := if len ≤ n0 then len - 1 else n0

theorem cappedIndex_lt (len n0 : ℕ) (h : 1 ≤ len) : cappedIndex len n0 < len := by
  unfold cappedIndex
  split <;> omega

/-- Outer while-loop of smoothPath, carrying currentIndex and the accumulated
smoothed path. -/
def smoothLoop (obstacles : List Obstacle) (rawPath : List Point)
    (currentIndex : ℕ) (smoothed : List Point) : List Point :=
  if _h : currentIndex < rawPath.length - 1 then
    let startPoint := smoothed.getLastD ((0 : ℚ), (0 : ℚ))
    let n0 := findSkipIndex obstacles startPoint rawPath (currentIndex + 1)
    let n1 := cappedIndex rawPath.length n0
    if _h2 : currentIndex < n1 then
      smoothLoop obstacles rawPath n1 (smoothed ++ [rawPath.getD n1 ((0 : ℚ), (0 : ℚ))])
    else
      if _h3 : currentIndex + 1 < rawPath.length then
        smoothLoop obstacles rawPath (currentIndex + 1)
          (smoothed ++ [rawPath.getD (currentIndex + 1) ((0 : ℚ), (0 : ℚ))])
      else smoothLoop obstacles rawPath (currentIndex + 1) smoothed
  else smoothed
termination_by rawPath.length - currentIndex
decreasing_by
  · simp only [n1, n0, startPoint] at _h2 ⊢
    have hlt := cappedIndex_lt rawPath.length
      (findSkipIndex obstacles (smoothed.getLastD ((0 : ℚ), (0 : ℚ))) rawPath (currentIndex + 1))
      (by omega)
    omega
  · omega
  · omega

/-- AStar.smoothPath: paths of at most two points are returned unchanged,
longer ones are greedily shortcut. -/
def smoothPath (rawPath : List Point) (obstacles : List Obstacle) : List Point :=
  if rawPath.length ≤ 2 then rawPath
  else smoothLoop obstacles rawPath 0 (rawPath.take 1)

/-- Walk the cameFrom parent links from a cell, listing the cell and its
ancestors in target-to-start order (the source does this with an unbounded
while loop; the fuel is justified by the strict g-descent along parent links,
which bounds the chain length by the number of grid cells). -/
def chainCells (cameFrom : Cell → Option Cell) : ℕ → Cell → List Cell
  | 0, _ => []
  | fuel + 1, k =>
    match cameFrom k with
    | none => [k]
    | some p => k :: chainCells cameFrom fuel p

/-- AStar.reconstructPath: tile centers of the found chain in start-to-target
order, with the start-tile node dropped, the exact start point prepended and
the final node replaced by the exact target point. -/
def reconstructPath (cameFrom : Cell → Option Cell) (fuel : ℕ) (currentKey : Cell)
    (startX startY targetX targetY : ℚ) : List Point :=
  let nodes := ((chainCells cameFrom fuel currentKey).reverse).map tileCenter
  let nodes1 :=
    match nodes with
    | [] => ([] : List Point)
    | firstNode :: rest =>
      if tileOf firstNode.1 firstNode.2 = tileOf startX startY then rest
      else firstNode :: rest
  ((startX, startY) :: nodes1.dropLast) ++ [(targetX, targetY)]

/-- The eight neighbor directions, in source order. -/
def neighborDirs : List Cell :=
  [(1, 0), (-1, 0), (0, 1), (0, -1), (1, 1), (1, -1), (-1, 1), (-1, -1)]

/-- Cost of a move in a given direction: 1 for orthogonal, sqrt 2 for
diagonal steps. -/
noncomputable def stepCost (d : Cell) : ℝ :=
  if d.1 = 0 ∨ d.2 = 0 then 1 else Real.sqrt 2

/-- The mutable search state of AStar.findPath.  Absent gScore/fScore map
entries read as Infinity, modelled by the `WithTop` default; openSet and
openHeap of the source always hold the same cells (they are added to and
removed from together), so a single list models both. -/
structure AState where
  openHeap : List Cell
  gScore : Cell → WithTop ℝ
  fScore : Cell → WithTop ℝ
  cameFrom : Cell → Option Cell

/-- Relaxation of a single neighbor direction inside the search loop:
bounds check, blocked check, corner-cut check, then the tentative-g
improvement update. -/
noncomputable def relaxNeighbor (cfg : Config) (target : Cell) (current : Cell)
    (st : AState) (d : Cell) : AState :=
  let n : Cell := (current.1 + d.1, current.2 + d.2)
  if n.1 < 0 ∨ n.2 < 0 ∨ cfg.gridWidth ≤ n.1 ∨ cfg.gridHeight ≤ n.2 then st
  else if isBlocked cfg n then st
  else if (d.1 ≠ 0 ∧ d.2 ≠ 0) ∧
      (isBlocked cfg (current.1 + d.1, current.2) ∨ isBlocked cfg (current.1, current.2 + d.2)) then st
  else
    let tentativeG := st.gScore current + (stepCost d : WithTop ℝ)
    if tentativeG < st.gScore n then
      { openHeap := if n ∈ st.openHeap then st.openHeap else st.openHeap ++ [n]
        gScore := fun k => if k = n then tentativeG else st.gScore k
        fScore := fun k => if k = n then tentativeG + ((heuristic n target : ℝ) : WithTop ℝ)
          else st.fScore k
        cameFrom := fun k => if k = n then some current else st.cameFrom k }
    else st

/-- One pass over all eight neighbor directions of the current cell. -/
noncomputable def relaxAll (cfg : Config) (target : Cell) (current : Cell)
    (st : AState) : AState :=
  neighborDirs.foldl (relaxNeighbor cfg target current) st

/-- The linear scan of openHeap for the node with the strictly lowest fScore
(first minimum wins), carrying the running index, best candidate and best
score exactly as the source loop does. -/
noncomputable def bestScan (f : Cell → WithTop ℝ) :
    List Cell → ℕ → Option (ℕ × Cell) → WithTop ℝ → Option (ℕ × Cell)
  | [], _, best, _ => best
  | k :: rest, i, best, bestF =>
    if f k < bestF then bestScan f rest (i + 1) (some (i, k)) (f k)
    else bestScan f rest (i + 1) best bestF

/-- Selection of the open node with the lowest fScore. -/
noncomputable def selectBest (st : AState) : Option (ℕ × Cell) :=
  bestScan st.fScore st.openHeap 0 none ⊤

/-- Result of the search loop: target popped (with the final parent map),
search space exhausted with no route (the source returns null), or fuel ran
out (proved unreachable from the initial state). -/
inductive LoopOutcome where
  | found (cameFrom : Cell → Option Cell)
  | failed
  | exhausted

/-- The main while-loop of AStar.findPath. -/
noncomputable def astarLoop (cfg : Config) (target : Cell) : ℕ → AState → LoopOutcome
  | 0, _ => .exhausted
  | fuel + 1, st =>
    if st.openHeap.isEmpty then .failed
    else
      match selectBest st with
      | none => .failed
      | some (i, currentKey) =>
        if currentKey = target then .found st.cameFrom
        else
          astarLoop cfg target fuel
            (relaxAll cfg target currentKey { st with openHeap := st.openHeap.eraseIdx i })

/-- Fuel used for the search loop and the parent-chain walk: one more than
the number of grid cells (sufficiency is proved below). -/
def searchFuel (cfg : Config) : ℕ := (cfg.gridWidth * cfg.gridHeight).toNat + 1

/-- The initial search state: the start cell with gScore 0 and fScore equal
to the heuristic. -/
noncomputable def initState (startG targetG : Cell) : AState :=
  { openHeap := [startG]
    gScore := fun k => if k = startG then ((0 : ℝ) : WithTop ℝ) else ⊤
    fScore := fun k => if k = startG then ((heuristic startG targetG : ℝ) : WithTop ℝ) else ⊤
    cameFrom := fun _ => none }

/-- AStar.findPath: endpoint conversion and blocked checks, the degenerate
same-tile branch, then the A* search with reconstruction and smoothing. -/
noncomputable def findPath (cfg : Config) (startX startY targetX targetY : ℚ) :
    Option (List Point) :=
  let startG := tileOf startX startY
  let targetG := tileOf targetX targetY
  if isBlocked cfg startG then none
  else if isBlocked cfg targetG then none
  else if startG = targetG then
    some [(startX, startY), tileCenter targetG]
  else
    match astarLoop cfg targetG (searchFuel cfg) (initState startG targetG) with
    | .found cameFrom =>
      some (smoothPath
        (reconstructPath cameFrom (searchFuel cfg) targetG startX startY targetX targetY)
        cfg.obstacles)
    | _ => none

/-- The tile route the search found, before reconstruction and smoothing:
the reversed cameFrom chain of the popped target (start-to-target order).
None in the blocked, degenerate and no-route cases. -/
noncomputable def tileChain (cfg : Config) (startX startY targetX targetY : ℚ) :
    Option (List Cell) :=
  let startG := tileOf startX startY
  let targetG := tileOf targetX targetY
  if isBlocked cfg startG then none
  else if isBlocked cfg targetG then none
  else if startG = targetG then none
  else
    match astarLoop cfg targetG (searchFuel cfg) (initState startG targetG) with
    | .found cameFrom => some ((chainCells cameFrom (searchFuel cfg) targetG).reverse)
    | _ => none

/-- The steps the search may take, read off the relaxation guards: the move
is one of the eight directions, lands on an unblocked in-bounds cell, and a
diagonal move additionally needs both flanking orthogonal cells unblocked. -/
def AllowedStep (cfg : Config) (a b : Cell) : Prop :=
  (b.1 - a.1, b.2 - a.2) ∈ neighborDirs ∧
  isBlocked cfg b = false ∧
  (b.1 - a.1 ≠ 0 ∧ b.2 - a.2 ≠ 0 →
    isBlocked cfg (b.1, a.2) = false ∧ isBlocked cfg (a.1, b.2) = false)

instance (cfg : Config) (a b : Cell) : Decidable (AllowedStep cfg a b) := by
  unfold AllowedStep
  infer_instance

/-- A route of cells connected by allowed steps from s to t, starting on a
free cell. -/
def ValidRoute (cfg : Config) (s t : Cell) (r : List Cell) : Prop :=
  r.head? = some s ∧ r.getLast? = some t ∧ isBlocked cfg s = false ∧
  List.Chain' (AllowedStep cfg) r

/-- Existence of a corner-rule-respecting 8-connected route between two cells. -/
def ReachableCorner (cfg : Config) (s t : Cell) : Prop :=
  ∃ r, ValidRoute cfg s t r

/-- A step of an 8-connected obstacle-free route in the plain sense of the
spec text: Chebyshev distance one, landing cell unblocked, no corner rule. -/
def EightStep (cfg : Config) (a b : Cell) : Prop :=
  max (a.1 - b.1).natAbs (a.2 - b.2).natAbs = 1 ∧ isBlocked cfg b = false

/-- An 8-connected obstacle-free route in the plain sense of the spec text. -/
def EightRoute (cfg : Config) (s t : Cell) (r : List Cell) : Prop :=
  r.head? = some s ∧ r.getLast? = some t ∧ isBlocked cfg s = false ∧
  List.Chain' (EightStep cfg) r

/-- Cost of a tile route: 1 per orthogonal step, sqrt 2 per diagonal step. -/
noncomputable def routeCost : List Cell → ℝ
  | [] => 0
  | [_] => 0
  | a :: b :: rest => stepCost (b.1 - a.1, b.2 - a.2) + routeCost (b :: rest)

/-! ### Pointwise evaluation lemmas for the search loop -/

theorem isBlocked_oob (cfg : Config) (c : Cell)
    (h : c.1 < 0 ∨ c.2 < 0 ∨ cfg.gridWidth ≤ c.1 ∨ cfg.gridHeight ≤ c.2) :
    isBlocked cfg c = true := by
  unfold isBlocked
  rw [if_pos h]

theorem not_oob_of_isBlocked_false {cfg : Config} {c : Cell}
    (h : isBlocked cfg c = false) :
    ¬(c.1 < 0 ∨ c.2 < 0 ∨ cfg.gridWidth ≤ c.1 ∨ cfg.gridHeight ≤ c.2) := by
  intro hc
  unfold isBlocked at h
  rw [if_pos hc] at h
  cases h

theorem stepCost_orth {d : Cell} (h : d.1 = 0 ∨ d.2 = 0) : stepCost d = 1 := by
  unfold stepCost
  rw [if_pos h]

theorem stepCost_diag {d : Cell} (h : ¬(d.1 = 0 ∨ d.2 = 0)) : stepCost d = Real.sqrt 2 := by
  unfold stepCost
  rw [if_neg h]

theorem relaxNeighbor_skip_blocked (cfg : Config) (target current : Cell) (st : AState)
    (d : Cell) (h : isBlocked cfg (current.1 + d.1, current.2 + d.2) = true) :
    relaxNeighbor cfg target current st d = st := by
  unfold relaxNeighbor
  by_cases hb : (current.1 + d.1 < 0 ∨ current.2 + d.2 < 0 ∨
      cfg.gridWidth ≤ current.1 + d.1 ∨ cfg.gridHeight ≤ current.2 + d.2)
  · rw [if_pos hb]
  · rw [if_neg hb, if_pos h]

theorem relaxNeighbor_skip_corner (cfg : Config) (target current : Cell) (st : AState)
    (d : Cell) (hfree : isBlocked cfg (current.1 + d.1, current.2 + d.2) = false)
    (hd : d.1 ≠ 0 ∧ d.2 ≠ 0)
    (hc : isBlocked cfg (current.1 + d.1, current.2) = true ∨
      isBlocked cfg (current.1, current.2 + d.2) = true) :
    relaxNeighbor cfg target current st d = st := by
  unfold relaxNeighbor
  rw [if_neg (not_oob_of_isBlocked_false hfree), if_neg (by rw [hfree]; exact fun hh => by cases hh),
    if_pos ⟨hd, by simpa using hc⟩]

theorem relaxNeighbor_skip_noimp (cfg : Config) (target current : Cell) (st : AState)
    (d : Cell) (hfree : isBlocked cfg (current.1 + d.1, current.2 + d.2) = false)
    (hcorner : ¬((d.1 ≠ 0 ∧ d.2 ≠ 0) ∧
      (isBlocked cfg (current.1 + d.1, current.2) = true ∨
       isBlocked cfg (current.1, current.2 + d.2) = true)))
    (himp : ¬(st.gScore current + (stepCost d : WithTop ℝ) <
      st.gScore (current.1 + d.1, current.2 + d.2))) :
    relaxNeighbor cfg target current st d = st := by
  unfold relaxNeighbor
  rw [if_neg (not_oob_of_isBlocked_false hfree), if_neg (by rw [hfree]; exact fun hh => by cases hh),
    if_neg (by simpa using hcorner), if_neg himp]

theorem relaxNeighbor_update (cfg : Config) (target current : Cell) (st : AState)
    (d : Cell) (hfree : isBlocked cfg (current.1 + d.1, current.2 + d.2) = false)
    (hcorner : ¬((d.1 ≠ 0 ∧ d.2 ≠ 0) ∧
      (isBlocked cfg (current.1 + d.1, current.2) = true ∨
       isBlocked cfg (current.1, current.2 + d.2) = true)))
    (himp : st.gScore current + (stepCost d : WithTop ℝ) <
      st.gScore (current.1 + d.1, current.2 + d.2)) :
    relaxNeighbor cfg target current st d =
      { openHeap := if (current.1 + d.1, current.2 + d.2) ∈ st.openHeap then st.openHeap
          else st.openHeap ++ [(current.1 + d.1, current.2 + d.2)]
        gScore := fun k => if k = (current.1 + d.1, current.2 + d.2) then
            st.gScore current + (stepCost d : WithTop ℝ) else st.gScore k
        fScore := fun k => if k = (current.1 + d.1, current.2 + d.2) then
            st.gScore current + (stepCost d : WithTop ℝ) +
              ((heuristic (current.1 + d.1, current.2 + d.2) target : ℝ) : WithTop ℝ)
          else st.fScore k
        cameFrom := fun k => if k = (current.1 + d.1, current.2 + d.2) then some current
          else st.cameFrom k } := by
  unfold relaxNeighbor
  rw [if_neg (not_oob_of_isBlocked_false hfree), if_neg (by rw [hfree]; exact fun hh => by cases hh),
    if_neg (by simpa using hcorner), if_pos himp]

theorem selectBest_single (st : AState) (k : Cell) (hheap : st.openHeap = [k])
    (hf : st.fScore k < ⊤) : selectBest st = some (0, k) := by
  unfold selectBest bestScan
  rw [hheap]
  simp only [bestScan, if_pos hf]

theorem astarLoop_step_failed (cfg : Config) (target : Cell) (fuel : ℕ) (st : AState)
    (hheap : st.openHeap = []) :
    astarLoop cfg target (fuel + 1) st = .failed := by
  rw [astarLoop, hheap]
  rfl

theorem astarLoop_step_found (cfg : Config) (target : Cell) (fuel : ℕ) (st : AState)
    (hheap : st.openHeap = [target]) (hf : st.fScore target < ⊤) :
    astarLoop cfg target (fuel + 1) st = .found st.cameFrom := by
  rw [astarLoop]
  rw [selectBest_single st target hheap hf]
  simp only [hheap, List.isEmpty_cons, Bool.false_eq_true, if_false, if_pos rfl, if_true]

theorem astarLoop_step_pop (cfg : Config) (target : Cell) (fuel : ℕ) (st : AState)
    (k : Cell) (hheap : st.openHeap = [k]) (hf : st.fScore k < ⊤) (hne : k ≠ target) :
    astarLoop cfg target (fuel + 1) st =
      astarLoop cfg target fuel (relaxAll cfg target k
        { openHeap := [], gScore := st.gScore, fScore := st.fScore, cameFrom := st.cameFrom }) := by
  rw [astarLoop]
  rw [selectBest_single st k hheap hf]
  simp only [hheap, List.isEmpty_cons, Bool.false_eq_true, if_false, if_neg hne,
    List.eraseIdx_cons_zero]

theorem wt_coe_sum (a b : ℝ) :
    ((a : WithTop ℝ)) + ((b : WithTop ℝ)) = ((a + b : ℝ) : WithTop ℝ) := by
  norm_cast

theorem wt_two_lt_top : (2 : WithTop ℝ) < ⊤ := by
  rw [show ((2 : WithTop ℝ)) = (((2 : ℝ)) : WithTop ℝ) by norm_cast]
  exact WithTop.coe_lt_top 2

/-! ### Concrete configurations used by counterexamples and witnesses -/

/-- A one-tile world with no obstacles, used for the degenerate same-tile call. -/
def cfgSame : Config := { canvasWidth := 32, canvasHeight := 32, obstacles := [] }

theorem same_b00 : isBlocked cfgSame (0, 0) = false := by
  simp only [isBlocked, Config.gridWidth, Config.gridHeight, cfgSame, TILE_SIZE]
  norm_num

theorem same_ts : tileOf 5 7 = ((0 : ℤ), (0 : ℤ)) := by
  simp only [tileOf, TILE_SIZE]
  norm_num

theorem same_tt : tileOf 10 9 = ((0 : ℤ), (0 : ℤ)) := by
  simp only [tileOf, TILE_SIZE]
  norm_num

/-- The degenerate same-tile call returns the start point and the tile center,
not the requested target point. -/
theorem same_findPath : findPath cfgSame 5 7 10 9 = some [(5, 7), (16, 16)] := by
  rw [findPath]
  simp only [same_ts, same_tt, same_b00, Bool.false_eq_true, if_false, if_pos rfl, if_true,
    tileCenter, TILE_SIZE]
  norm_num

/-- A 2 by 2 world whose two middle tiles are obstacles, so the only
connection between the two free corners is the diagonal the corner-cut rule
forbids. -/
def cfgCorner : Config :=
  { canvasWidth := 64, canvasHeight := 64,
    obstacles := [{ x := 32, y := 0 }, { x := 0, y := 32 }] }

theorem corner_b10 : isBlocked cfgCorner (1, 0) = true := by
  simp only [isBlocked, Config.gridWidth, Config.gridHeight, cfgCorner, TILE_SIZE]
  norm_num

theorem corner_b01 : isBlocked cfgCorner (0, 1) = true := by
  simp only [isBlocked, Config.gridWidth, Config.gridHeight, cfgCorner, TILE_SIZE]
  norm_num

theorem corner_b00 : isBlocked cfgCorner (0, 0) = false := by
  simp only [isBlocked, Config.gridWidth, Config.gridHeight, cfgCorner, TILE_SIZE]
  norm_num

theorem corner_b11 : isBlocked cfgCorner (1, 1) = false := by
  simp only [isBlocked, Config.gridWidth, Config.gridHeight, cfgCorner, TILE_SIZE]
  norm_num

theorem corner_w : cfgCorner.gridWidth = 2 := by
  simp only [Config.gridWidth, cfgCorner, TILE_SIZE]
  norm_num

theorem corner_h : cfgCorner.gridHeight = 2 := by
  simp only [Config.gridHeight, cfgCorner, TILE_SIZE]
  norm_num

theorem corner_fuel : searchFuel cfgCorner = 5 := by
  rw [searchFuel, corner_w, corner_h]
  decide

theorem corner_ts : tileOf 16 16 = ((0 : ℤ), (0 : ℤ)) := by
  simp only [tileOf, TILE_SIZE]
  norm_num

theorem corner_tt : tileOf 48 48 = ((1 : ℤ), (1 : ℤ)) := by
  simp only [tileOf, TILE_SIZE]
  norm_num

theorem corner_loop :
    astarLoop cfgCorner (1, 1) 5 (initState (0, 0) (1, 1)) = .failed := by
  rw [show (5 : ℕ) = 4 + 1 from rfl,
    astarLoop_step_pop cfgCorner (1, 1) 4 (initState (0, 0) (1, 1)) (0, 0)
      (by simp [initState]) (by simp [initState, WithTop.coe_lt_top]) (by decide)]
  simp only [relaxAll, neighborDirs, List.foldl_cons, List.foldl_nil, initState]
  rw [relaxNeighbor_skip_blocked cfgCorner (1, 1) (0, 0) _ (1, 0) corner_b10]
  rw [relaxNeighbor_skip_blocked cfgCorner (1, 1) (0, 0) _ (-1, 0)
    (isBlocked_oob cfgCorner _ (Or.inl (by norm_num)))]
  rw [relaxNeighbor_skip_blocked cfgCorner (1, 1) (0, 0) _ (0, 1) corner_b01]
  rw [relaxNeighbor_skip_blocked cfgCorner (1, 1) (0, 0) _ (0, -1)
    (isBlocked_oob cfgCorner _ (Or.inr (Or.inl (by norm_num))))]
  rw [relaxNeighbor_skip_corner cfgCorner (1, 1) (0, 0) _ (1, 1) corner_b11
    (by exact ⟨by decide, by decide⟩) (Or.inl corner_b10)]
  rw [relaxNeighbor_skip_blocked cfgCorner (1, 1) (0, 0) _ (1, -1)
    (isBlocked_oob cfgCorner _ (Or.inr (Or.inl (by norm_num))))]
  rw [relaxNeighbor_skip_blocked cfgCorner (1, 1) (0, 0) _ (-1, 1)
    (isBlocked_oob cfgCorner _ (Or.inl (by norm_num)))]
  rw [relaxNeighbor_skip_blocked cfgCorner (1, 1) (0, 0) _ (-1, -1)
    (isBlocked_oob cfgCorner _ (Or.inl (by norm_num)))]
  rw [show (4 : ℕ) = 3 + 1 from rfl, astarLoop_step_failed cfgCorner (1, 1) 3 _ rfl]

/-- In the corner world the pathfinder reports no route although the two free
corner tiles are 8-connected through unblocked cells. -/
theorem corner_findPath : findPath cfgCorner 16 16 48 48 = none := by
  rw [findPath]
  simp only [corner_ts, corner_tt, corner_b00, corner_b11, corner_fuel, corner_loop,
    Bool.false_eq_true, if_false]
  norm_num

/-- A 2 by 2 world with a single obstacle at the top-right tile; the smoothed
path from (20,30) to (50,46) jumps diagonally past the blocked tile corner. -/
def cfgCut : Config :=
  { canvasWidth := 64, canvasHeight := 64, obstacles := [{ x := 32, y := 0 }] }

theorem cut_w : cfgCut.gridWidth = 2 := by
  simp only [Config.gridWidth, cfgCut, TILE_SIZE]
  norm_num

theorem cut_h : cfgCut.gridHeight = 2 := by
  simp only [Config.gridHeight, cfgCut, TILE_SIZE]
  norm_num

theorem cut_b10 : isBlocked cfgCut (1, 0) = true := by
  simp only [isBlocked, Config.gridWidth, Config.gridHeight, cfgCut, TILE_SIZE]
  norm_num

theorem cut_b00 : isBlocked cfgCut (0, 0) = false := by
  simp only [isBlocked, Config.gridWidth, Config.gridHeight, cfgCut, TILE_SIZE]
  norm_num

theorem cut_b01 : isBlocked cfgCut (0, 1) = false := by
  simp only [isBlocked, Config.gridWidth, Config.gridHeight, cfgCut, TILE_SIZE]
  norm_num

theorem cut_b11 : isBlocked cfgCut (1, 1) = false := by
  simp only [isBlocked, Config.gridWidth, Config.gridHeight, cfgCut, TILE_SIZE]
  norm_num

theorem cut_ts : tileOf 20 30 = ((0 : ℤ), (0 : ℤ)) := by
  simp only [tileOf, TILE_SIZE]
  norm_num

theorem cut_tt : tileOf 50 46 = ((1 : ℤ), (1 : ℤ)) := by
  simp only [tileOf, TILE_SIZE]
  norm_num

theorem cut_fuel : searchFuel cfgCut = 5 := by
  rw [searchFuel, cut_w, cut_h]
  decide

theorem cut_loop : astarLoop cfgCut (1, 1) 5 (initState (0, 0) (1, 1)) =
    .found (fun k =>
      if k = (1, 1) then some (0, 1) else if k = (0, 1) then some (0, 0) else none) := by
  rw [show (5 : ℕ) = 4 + 1 from rfl,
    astarLoop_step_pop cfgCut (1, 1) 4 (initState (0, 0) (1, 1)) (0, 0)
      (by simp [initState]) (by simp [initState, WithTop.coe_lt_top]) (by decide)]
  simp only [relaxAll, neighborDirs, List.foldl_cons, List.foldl_nil, initState]
  rw [relaxNeighbor_skip_blocked cfgCut (1, 1) (0, 0) _ (1, 0) cut_b10]
  rw [relaxNeighbor_skip_blocked cfgCut (1, 1) (0, 0) _ (-1, 0)
    (isBlocked_oob cfgCut _ (Or.inl (by norm_num)))]
  rw [relaxNeighbor_update cfgCut (1, 1) (0, 0) _ (0, 1) cut_b01
    (by intro hc; exact absurd rfl hc.1.1)
    (by norm_num [stepCost, WithTop.coe_lt_top, -Prod.mk_zero_zero, -Prod.mk_one_one])]
  rw [relaxNeighbor_skip_blocked cfgCut (1, 1) (0, 0) _ (0, -1)
    (isBlocked_oob cfgCut _ (Or.inr (Or.inl (by norm_num))))]
  rw [relaxNeighbor_skip_corner cfgCut (1, 1) (0, 0) _ (1, 1) cut_b11
    (by exact ⟨by decide, by decide⟩) (Or.inl cut_b10)]
  rw [relaxNeighbor_skip_blocked cfgCut (1, 1) (0, 0) _ (1, -1)
    (isBlocked_oob cfgCut _ (Or.inr (Or.inl (by norm_num))))]
  rw [relaxNeighbor_skip_blocked cfgCut (1, 1) (0, 0) _ (-1, 1)
    (isBlocked_oob cfgCut _ (Or.inl (by norm_num)))]
  rw [relaxNeighbor_skip_blocked cfgCut (1, 1) (0, 0) _ (-1, -1)
    (isBlocked_oob cfgCut _ (Or.inl (by norm_num)))]
  rw [show (4 : ℕ) = 3 + 1 from rfl,
    astarLoop_step_pop cfgCut (1, 1) 3 _ (0, 1)
      (by norm_num [-Prod.mk_zero_zero, -Prod.mk_one_one])
      (by norm_num [WithTop.add_lt_top, WithTop.coe_lt_top, -Prod.mk_zero_zero, -Prod.mk_one_one])
      (by decide)]
  simp only [relaxAll, neighborDirs, List.foldl_cons, List.foldl_nil]
  rw [relaxNeighbor_update cfgCut (1, 1) (0, 1) _ (1, 0) cut_b11
    (by intro hc; exact absurd rfl hc.1.2)
    (by norm_num [stepCost, WithTop.add_lt_top, WithTop.coe_lt_top, wt_two_lt_top,
      -Prod.mk_zero_zero, -Prod.mk_one_one])]
  rw [relaxNeighbor_skip_blocked cfgCut (1, 1) (0, 1) _ (-1, 0)
    (isBlocked_oob cfgCut _ (Or.inl (by norm_num)))]
  rw [relaxNeighbor_skip_blocked cfgCut (1, 1) (0, 1) _ (0, 1)
    (isBlocked_oob cfgCut _ (Or.inr (Or.inr (Or.inr (by norm_num [cut_h])))))]
  rw [relaxNeighbor_skip_noimp cfgCut (1, 1) (0, 1) _ (0, -1)
    (by norm_num [cut_b00, -Prod.mk_zero_zero, -Prod.mk_one_one])
    (by intro hc; exact absurd rfl hc.1.1)
    (by norm_num [stepCost, wt_coe_sum, WithTop.coe_lt_coe, -Prod.mk_zero_zero, -Prod.mk_one_one])]
  rw [relaxNeighbor_skip_blocked cfgCut (1, 1) (0, 1) _ (1, 1)
    (isBlocked_oob cfgCut _ (Or.inr (Or.inr (Or.inr (by norm_num [cut_h])))))]
  rw [relaxNeighbor_skip_blocked cfgCut (1, 1) (0, 1) _ (1, -1)
    (by norm_num [cut_b10, -Prod.mk_zero_zero, -Prod.mk_one_one])]
  rw [relaxNeighbor_skip_blocked cfgCut (1, 1) (0, 1) _ (-1, 1)
    (isBlocked_oob cfgCut _ (Or.inl (by norm_num)))]
  rw [relaxNeighbor_skip_blocked cfgCut (1, 1) (0, 1) _ (-1, -1)
    (isBlocked_oob cfgCut _ (Or.inl (by norm_num)))]
  rw [show (3 : ℕ) = 2 + 1 from rfl,
    astarLoop_step_found cfgCut (1, 1) 2 _
      (by norm_num [-Prod.mk_zero_zero, -Prod.mk_one_one])
      (by norm_num [WithTop.add_lt_top, WithTop.coe_lt_top, wt_two_lt_top,
        -Prod.mk_zero_zero, -Prod.mk_one_one])]
  congr 1

theorem cut_chain : tileChain cfgCut 20 30 50 46 = some [(0, 0), (0, 1), (1, 1)] := by
  rw [tileChain]
  simp only [cut_ts, cut_tt, cut_b00, cut_b11, cut_fuel, cut_loop]
  norm_num [chainCells, -Prod.mk_zero_zero, -Prod.mk_one_one]

theorem cut_raw : reconstructPath
    (fun k => if k = (1, 1) then some (0, 1) else if k = (0, 1) then some (0, 0) else none)
    5 (1, 1) 20 30 50 46 = [(20, 30), (16, 48), (50, 46)] := by
  rw [reconstructPath]
  norm_num [chainCells, tileCenter, tileOf, TILE_SIZE, -Prod.mk_zero_zero, -Prod.mk_one_one]

theorem cut_seg1 : segmentBlockedBy cfgCut.obstacles (20, 30) (16, 48) = false := by
  norm_num [segmentBlockedBy, lineIntersectsAABB, lineSegmentsIntersect, cfgCut, TILE_SIZE]

theorem cut_seg2 : segmentBlockedBy cfgCut.obstacles (20, 30) (50, 46) = false := by
  norm_num [segmentBlockedBy, lineIntersectsAABB, lineSegmentsIntersect, cfgCut, TILE_SIZE]

theorem cut_skip : findSkipIndex cfgCut.obstacles (20, 30)
    [(20, 30), (16, 48), (50, 46)] 1 = 3 := by
  rw [findSkipIndex]
  norm_num [cut_seg1]
  rw [findSkipIndex]
  norm_num [cut_seg2]
  rw [findSkipIndex]
  norm_num

/-- The smoothing pass shortcuts the found route to a single diagonal segment
whose tile step passes the blocked flanking tile. -/
theorem cut_findPath : findPath cfgCut 20 30 50 46 = some [(20, 30), (50, 46)] := by
  rw [findPath]
  simp only [cut_ts, cut_tt, cut_b00, cut_b11, cut_fuel, cut_loop, cut_raw]
  rw [smoothPath]
  norm_num
  rw [smoothLoop]
  norm_num [List.getLastD, cut_skip, cappedIndex]
  rw [smoothLoop]
  norm_num

/-- A 3 by 1 obstacle-free corridor. -/
def cfgCorr : Config := { canvasWidth := 96, canvasHeight := 32, obstacles := [] }

theorem corr_w : cfgCorr.gridWidth = 3 := by
  simp only [Config.gridWidth, cfgCorr, TILE_SIZE]
  norm_num

theorem corr_h : cfgCorr.gridHeight = 1 := by
  simp only [Config.gridHeight, cfgCorr, TILE_SIZE]
  norm_num

theorem corr_b00 : isBlocked cfgCorr (0, 0) = false := by
  simp only [isBlocked, Config.gridWidth, Config.gridHeight, cfgCorr, TILE_SIZE]
  norm_num

theorem corr_b10 : isBlocked cfgCorr (1, 0) = false := by
  simp only [isBlocked, Config.gridWidth, Config.gridHeight, cfgCorr, TILE_SIZE]
  norm_num

theorem corr_b20 : isBlocked cfgCorr (2, 0) = false := by
  simp only [isBlocked, Config.gridWidth, Config.gridHeight, cfgCorr, TILE_SIZE]
  norm_num

theorem corr_ts : tileOf 16 16 = ((0 : ℤ), (0 : ℤ)) := by
  simp only [tileOf, TILE_SIZE]
  norm_num

theorem corr_tt : tileOf 80 16 = ((2 : ℤ), (0 : ℤ)) := by
  simp only [tileOf, TILE_SIZE]
  norm_num

theorem corr_fuel : searchFuel cfgCorr = 4 := by
  rw [searchFuel, corr_w, corr_h]
  decide

theorem corr_loop : astarLoop cfgCorr (2, 0) 4 (initState (0, 0) (2, 0)) =
    .found (fun k =>
      if k = (2, 0) then some (1, 0) else if k = (1, 0) then some (0, 0) else none) := by
  rw [show (4 : ℕ) = 3 + 1 from rfl,
    astarLoop_step_pop cfgCorr (2, 0) 3 (initState (0, 0) (2, 0)) (0, 0)
      (by simp [initState]) (by simp [initState, WithTop.coe_lt_top]) (by decide)]
  simp only [relaxAll, neighborDirs, List.foldl_cons, List.foldl_nil, initState]
  rw [relaxNeighbor_update cfgCorr (2, 0) (0, 0) _ (1, 0) corr_b10
    (by intro hc; exact absurd rfl hc.1.2)
    (by norm_num [stepCost, WithTop.coe_lt_top, -Prod.mk_zero_zero, -Prod.mk_one_one])]
  rw [relaxNeighbor_skip_blocked cfgCorr (2, 0) (0, 0) _ (-1, 0)
    (isBlocked_oob cfgCorr _ (Or.inl (by norm_num)))]
  rw [relaxNeighbor_skip_blocked cfgCorr (2, 0) (0, 0) _ (0, 1)
    (isBlocked_oob cfgCorr _ (Or.inr (Or.inr (Or.inr (by norm_num [corr_h])))))]
  rw [relaxNeighbor_skip_blocked cfgCorr (2, 0) (0, 0) _ (0, -1)
    (isBlocked_oob cfgCorr _ (Or.inr (Or.inl (by norm_num))))]
  rw [relaxNeighbor_skip_blocked cfgCorr (2, 0) (0, 0) _ (1, 1)
    (isBlocked_oob cfgCorr _ (Or.inr (Or.inr (Or.inr (by norm_num [corr_h])))))]
  rw [relaxNeighbor_skip_blocked cfgCorr (2, 0) (0, 0) _ (1, -1)
    (isBlocked_oob cfgCorr _ (Or.inr (Or.inl (by norm_num))))]
  rw [relaxNeighbor_skip_blocked cfgCorr (2, 0) (0, 0) _ (-1, 1)
    (isBlocked_oob cfgCorr _ (Or.inl (by norm_num)))]
  rw [relaxNeighbor_skip_blocked cfgCorr (2, 0) (0, 0) _ (-1, -1)
    (isBlocked_oob cfgCorr _ (Or.inl (by norm_num)))]
  rw [show (3 : ℕ) = 2 + 1 from rfl,
    astarLoop_step_pop cfgCorr (2, 0) 2 _ (1, 0)
      (by norm_num [-Prod.mk_zero_zero, -Prod.mk_one_one])
      (by norm_num [WithTop.add_lt_top, WithTop.coe_lt_top, -Prod.mk_zero_zero, -Prod.mk_one_one])
      (by decide)]
  simp only [relaxAll, neighborDirs, List.foldl_cons, List.foldl_nil]
  rw [relaxNeighbor_update cfgCorr (2, 0) (1, 0) _ (1, 0) corr_b20
    (by intro hc; exact absurd rfl hc.1.2)
    (by norm_num [stepCost, WithTop.add_lt_top, WithTop.coe_lt_top, wt_two_lt_top,
      -Prod.mk_zero_zero, -Prod.mk_one_one])]
  rw [relaxNeighbor_skip_noimp cfgCorr (2, 0) (1, 0) _ (-1, 0)
    (by norm_num [corr_b00, -Prod.mk_zero_zero, -Prod.mk_one_one])
    (by intro hc; exact absurd rfl hc.1.2)
    (by norm_num [stepCost, wt_coe_sum, WithTop.coe_lt_coe, -Prod.mk_zero_zero, -Prod.mk_one_one])]
  rw [relaxNeighbor_skip_blocked cfgCorr (2, 0) (1, 0) _ (0, 1)
    (isBlocked_oob cfgCorr _ (Or.inr (Or.inr (Or.inr (by norm_num [corr_h])))))]
  rw [relaxNeighbor_skip_blocked cfgCorr (2, 0) (1, 0) _ (0, -1)
    (isBlocked_oob cfgCorr _ (Or.inr (Or.inl (by norm_num))))]
  rw [relaxNeighbor_skip_blocked cfgCorr (2, 0) (1, 0) _ (1, 1)
    (isBlocked_oob cfgCorr _ (Or.inr (Or.inr (Or.inr (by norm_num [corr_h])))))]
  rw [relaxNeighbor_skip_blocked cfgCorr (2, 0) (1, 0) _ (1, -1)
    (isBlocked_oob cfgCorr _ (Or.inr (Or.inl (by norm_num))))]
  rw [relaxNeighbor_skip_blocked cfgCorr (2, 0) (1, 0) _ (-1, 1)
    (isBlocked_oob cfgCorr _ (Or.inr (Or.inr (Or.inr (by norm_num [corr_h])))))]
  rw [relaxNeighbor_skip_blocked cfgCorr (2, 0) (1, 0) _ (-1, -1)
    (isBlocked_oob cfgCorr _ (Or.inr (Or.inl (by norm_num))))]
  rw [show (2 : ℕ) = 1 + 1 from rfl,
    astarLoop_step_found cfgCorr (2, 0) 1 _
      (by norm_num [-Prod.mk_zero_zero, -Prod.mk_one_one])
      (by norm_num [WithTop.add_lt_top, WithTop.coe_lt_top, wt_two_lt_top,
        -Prod.mk_zero_zero, -Prod.mk_one_one])]
  congr 1

theorem corr_chain : tileChain cfgCorr 16 16 80 16 = some [(0, 0), (1, 0), (2, 0)] := by
  rw [tileChain]
  simp only [corr_ts, corr_tt, corr_b00, corr_b20, corr_fuel, corr_loop]
  norm_num [chainCells, -Prod.mk_zero_zero, -Prod.mk_one_one]

theorem corr_raw : reconstructPath
    (fun k => if k = (2, 0) then some (1, 0) else if k = (1, 0) then some (0, 0) else none)
    4 (2, 0) 16 16 80 16 = [(16, 16), (48, 16), (80, 16)] := by
  rw [reconstructPath]
  norm_num [chainCells, tileCenter, tileOf, TILE_SIZE, -Prod.mk_zero_zero, -Prod.mk_one_one]

theorem corr_skip : findSkipIndex cfgCorr.obstacles (16, 16)
    [(16, 16), (48, 16), (80, 16)] 1 = 3 := by
  rw [findSkipIndex]
  norm_num [segmentBlockedBy, cfgCorr]
  rw [findSkipIndex]
  norm_num [segmentBlockedBy, cfgCorr]
  rw [findSkipIndex]
  norm_num

/-- With no obstacles the smoothing pass shortcuts the corridor route to its
two endpoints, whose tiles are not adjacent. -/
theorem corr_findPath : findPath cfgCorr 16 16 80 16 = some [(16, 16), (80, 16)] := by
  rw [findPath]
  simp only [corr_ts, corr_tt, corr_b00, corr_b20, corr_fuel, corr_loop, corr_raw]
  rw [smoothPath]
  norm_num
  rw [smoothLoop]
  norm_num [List.getLastD, corr_skip, cappedIndex]
  rw [smoothLoop]
  norm_num [show ((0 : ℤ × ℤ) = (2, 0)) ↔ False from by decide]

/-- The corner-cut freedom property the C3 claim asserts of every returned
path, stated over the tiles of consecutive waypoints: a diagonal tile step
must have both flanking orthogonal tiles unblocked. -/
def NoCornerCut (cfg : Config) (p : List Point) : Prop :=
  List.Chain' (fun a b => a.1 ≠ b.1 ∧ a.2 ≠ b.2 →
    isBlocked cfg (b.1, a.2) = false ∧ isBlocked cfg (a.1, b.2) = false)
    (p.map fun q => tileOf q.1 q.2)

/-- C1, counterexample.  The claim fails on the code in two ways.  First, in
the degenerate same-tile call the returned path ends at the tile center
(16,16), not at the requested target (10,9).  Second, on a grid whose two free
corner tiles are 8-connected only through the diagonal that the corner-cut
rule forbids, findPath returns null although both endpoint tiles are
unblocked and an 8-connected obstacle-free route exists. -/
theorem C1_counterexample :
    (findPath cfgSame 5 7 10 9 = some [(5, 7), (16, 16)] ∧
      ((16 : ℚ), (16 : ℚ)) ≠ ((10 : ℚ), (9 : ℚ))) ∧
    (findPath cfgCorner 16 16 48 48 = none ∧
      isBlocked cfgCorner (tileOf 16 16) = false ∧
      isBlocked cfgCorner (tileOf 48 48) = false ∧
      EightRoute cfgCorner (tileOf 16 16) (tileOf 48 48) [(0, 0), (1, 1)]) := by
  refine ⟨⟨same_findPath, by norm_num⟩, corner_findPath, ?_, ?_, ?_⟩
  · rw [corner_ts]
    exact corner_b00
  · rw [corner_tt]
    exact corner_b11
  · rw [corner_ts, corner_tt]
    refine ⟨rfl, rfl, corner_b00, ?_⟩
    simp only [List.chain'_cons, List.chain'_singleton, and_true]
    exact ⟨by decide, corner_b11⟩

/-- C2, counterexample.  In an obstacle-free corridor the returned (smoothed)
path consists of the two endpoints only, whose tiles (0,0) and (2,0) are not
adjacent: the returned path does not encode an 8-connected tile route at all,
so its per-step tile-grid cost in the sense of the claim is not that of an
8-connected route between the endpoint tiles. -/
theorem C2_counterexample :
    findPath cfgCorr 16 16 80 16 = some [(16, 16), (80, 16)] ∧
    ¬ EightRoute cfgCorr (tileOf 16 16) (tileOf 80 16)
        (([(16, 16), (80, 16)] : List Point).map fun q => tileOf q.1 q.2) := by
  refine ⟨corr_findPath, ?_⟩
  intro h
  rw [corr_ts, corr_tt] at h
  simp only [List.map_cons, List.map_nil, corr_ts, corr_tt, EightRoute,
    List.chain'_cons, List.chain'_singleton, and_true] at h
  have hstep := h.2.2.2
  unfold EightStep at hstep
  exact absurd hstep.1 (by decide)

/-- C3, counterexample.  The smoothed path from (20,30) to (50,46) in the
single-obstacle world steps between the diagonally-differing tiles (0,0) and
(1,1) although the flanking tile (1,0) is blocked: the returned path cuts
the corner in the sense of the claim. -/
theorem C3_counterexample :
    findPath cfgCut 20 30 50 46 = some [(20, 30), (50, 46)] ∧
    ¬ NoCornerCut cfgCut [(20, 30), (50, 46)] := by
  refine ⟨cut_findPath, ?_⟩
  intro h
  rw [NoCornerCut] at h
  simp only [List.map_cons, List.map_nil, cut_ts, cut_tt,
    List.chain'_cons, List.chain'_singleton, and_true] at h
  have hb := (h ⟨by decide, by decide⟩).1
  rw [cut_b10] at hb
  cases hb

/-! ### JS number semantics

The projectile code can produce NaN and Infinity (division by a zero
distance), and JS comparisons with NaN are always false.  JNum models a JS
number as an exact real, NaN, or a signed infinity. -/

inductive JNum where
  | num (r : ℝ)
  | nan
  | pinf
  | ninf

/-- JS negation. -/
def jneg : JNum → JNum
  | .num r => .num (-r)
  | .nan => .nan
  | .pinf => .ninf
  | .ninf => .pinf

/-- JS addition: NaN propagates, opposite infinities give NaN. -/
def jadd : JNum → JNum → JNum
  | .num a, .num b => .num (a + b)
  | .nan, _ => .nan
  | _, .nan => .nan
  | .pinf, .ninf => .nan
  | .ninf, .pinf => .nan
  | .pinf, _ => .pinf
  | _, .pinf => .pinf
  | .ninf, _ => .ninf
  | _, .ninf => .ninf

/-- JS subtraction. -/
def jsub (a b : JNum) : JNum := jadd a (jneg b)

/-- JS multiplication: NaN propagates, infinity times zero is NaN. -/
noncomputable def jmul : JNum → JNum → JNum
  | .num a, .num b => .num (a * b)
  | .nan, _ => .nan
  | _, .nan => .nan
  | .pinf, .pinf => .pinf
  | .pinf, .ninf => .ninf
  | .ninf, .pinf => .ninf
  | .ninf, .ninf => .pinf
  | .pinf, .num b => if b = 0 then .nan else if 0 < b then .pinf else .ninf
  | .num a, .pinf => if a = 0 then .nan else if 0 < a then .pinf else .ninf
  | .ninf, .num b => if b = 0 then .nan else if 0 < b then .ninf else .pinf
  | .num a, .ninf => if a = 0 then .nan else if 0 < a then .ninf else .pinf

/-- JS division: 0/0 is NaN, nonzero/0 is a signed infinity. -/
noncomputable def jdiv : JNum → JNum → JNum
  | .num a, .num b =>
    if b = 0 then (if a = 0 then .nan else if 0 < a then .pinf else .ninf)
    else .num (a / b)
  | .nan, _ => .nan
  | _, .nan => .nan
  | .pinf, .pinf => .nan
  | .pinf, .ninf => .nan
  | .ninf, .pinf => .nan
  | .ninf, .ninf => .nan
  | .pinf, .num b => if 0 ≤ b then .pinf else .ninf
  | .ninf, .num b => if 0 ≤ b then .ninf else .pinf
  | .num _, .pinf => .num 0
  | .num _, .ninf => .num 0

/-- Math.sqrt: NaN on negative input and NaN. -/
noncomputable def jsqrt : JNum → JNum
  | .num r => if r < 0 then .nan else .num (Real.sqrt r)
  | .nan => .nan
  | .pinf => .pinf
  | .ninf => .nan

/-- JS strict less-than: always false when either side is NaN. -/
def jlt : JNum → JNum → Prop
  | .num a, .num b => a < b
  | .nan, _ => False
  | _, .nan => False
  | .pinf, _ => False
  | .num _, .pinf => True
  | .ninf, .ninf => False
  | .ninf, _ => True
  | .num _, .ninf => False

/-- JS less-or-equal: always false when either side is NaN. -/
def jle : JNum → JNum → Prop
  | .num a, .num b => a ≤ b
  | .nan, _ => False
  | _, .nan => False
  | .pinf, .pinf => True
  | .pinf, _ => False
  | _, .pinf => True
  | .ninf, _ => True
  | .num _, .ninf => False

noncomputable instance (a b : JNum) : Decidable (jlt a b) := by
  unfold jlt
  rcases a with r | _ | _ | _ <;> rcases b with s | _ | _ | _ <;> simp <;> infer_instance

noncomputable instance (a b : JNum) : Decidable (jle a b) := by
  unfold jle
  rcases a with r | _ | _ | _ <;> rcases b with s | _ | _ | _ <;> simp <;> infer_instance

/-- The squared-then-rooted distance appearing verbatim in the impact
resolution code: Math.sqrt(Math.pow(ax - bx, 2) + Math.pow(ay - by, 2)). -/
noncomputable def jdistM (ax ay bx bY : JNum) : JNum :=
  jsqrt (jadd (jmul (jsub ax bx) (jsub ax bx)) (jmul (jsub ay bY) (jsub ay bY)))

/-! ### Units and combat -/

/-- The unit classes of the source (Knight, Archer, Catapult, Pikeman);
Projectile.damageType carries the shooter class name. -/
inductive UnitKind where
  | knight
  | archer
  | catapult
  | pikeman
deriving DecidableEq

/-- The per-unit state: the fields of the Unit class the verified claims
touch.  JS object identity is modelled by an id; positions and stats are
rationals, while movement targets and formation positions, which the
formation engine overwrites with rotated (hence possibly irrational)
coordinates, are reals.  Weak object references (attack target, formation)
are modelled as ids. -/
structure UnitState where
  id : ℕ
  kind : UnitKind
  x : ℚ
  y : ℚ
  team : ℕ
  hp : ℚ
  maxHp : ℚ
  damage : ℚ
  radius : ℚ
  formationOrder : ℕ
  targetX : ℝ
  targetY : ℝ
  attackTarget : Option ℕ
  moving : Bool
  formation : Option ℕ
  inFormation : Bool
  formationSlot : Option (ℚ × ℚ)
  formationPosition : Option (ℝ × ℝ)
  path : Option (List Point)
  currentPathIndex : ℕ

/-- Unit.takeDamage applied to the unit at index k of the live list:
hp -= damage; at 0 or below the unit is clamped and spliced out of the list
(game.units.indexOf(this) is k since object references are unique). -/
def applyDamageAt (units : List UnitState) (k : ℕ) (damage : ℚ) : List UnitState :=
  match units.get? k with
  | none => units
  | some u =>
    if u.hp - damage ≤ 0 then units.eraseIdx k
    else units.set k { u with hp := u.hp - damage }

theorem applyDamageAt_length (units : List UnitState) (k : ℕ) (damage : ℚ) :
    (applyDamageAt units k damage).length = units.length ∨
    (applyDamageAt units k damage).length + 1 = units.length := by
  rcases h : units.get? k with _ | u
  · unfold applyDamageAt
    rw [h]
    exact Or.inl rfl
  · have hk : k < units.length := (List.get?_eq_some.mp h).1
    simp only [applyDamageAt, h]
    by_cases hd : u.hp - damage ≤ 0
    · rw [if_pos hd]
      right
      rw [List.length_eraseIdx]
      simp only [if_pos hk]
      omega
    · rw [if_neg hd]
      left
      exact List.length_set units k _

/-- The catapult area-damage scan of Projectile.update: game.units.forEach
with unit.takeDamage splicing the array being iterated.  JS forEach visits
ascending indices reading the array live, so when the visited unit dies and
is spliced out, the unit that slides into the next index is skipped.  The
index test k < units.length reproduces this: the list only ever shrinks. -/
noncomputable def aoeScan (px py : JNum) (impactRadius damage : ℚ) (shooterId : ℕ)
    (k : ℕ) (units : List UnitState) : List UnitState :=
  if h : k < units.length then
    let u := units.get ⟨k, h⟩
    let units1 :=
      if jlt (jdistM px py (.num u.x) (.num u.y)) (.num impactRadius) ∧ u.id ≠ shooterId then
        applyDamageAt units k damage
      else units
    aoeScan px py impactRadius damage shooterId (k + 1) units1
  else units
termination_by units.length - k
decreasing_by
  rcases applyDamageAt_length units k damage with hl | hl <;> split <;> omega

/-- The archer single-target resolution of Projectile.update: distance from
the projectile to the (possibly moved, possibly dead) target unit, damage
applied only when within the target unit's own radius.  A target no longer
in the live list is a dangling reference whose takeDamage has no effect on
the live list, modelled as a lookup miss. -/
noncomputable def singleTargetResolve (px py : JNum) (damage : ℚ) (targetId : ℕ)
    (units : List UnitState) : List UnitState :=
  match units.findIdx? (fun u => u.id = targetId) with
  | none => units
  | some k =>
    match units.get? k with
    | none => units
    | some u =>
      if jlt (jdistM px py (.num u.x) (.num u.y)) (.num u.radius)
      then applyDamageAt units k damage
      else units

/-- The Projectile state. -/
structure Projectile where
  x : JNum
  y : JNum
  damage : ℚ
  size : ℚ
  speed : ℚ
  targetX : JNum
  targetY : JNum
  shooterId : ℕ
  targetId : ℕ
  damageType : UnitKind
  vx : JNum
  vy : JNum
  active : Bool

/-- The Projectile constructor: aim at the target point; the velocity divides
by the Euclidean distance, which is zero when the shooter stands exactly on
the target point (0/0 gives NaN). -/
noncomputable def mkProjectile (x y tx ty : ℝ) (damage size speed : ℚ)
    (shooterId targetId : ℕ) (damageType : UnitKind) : Projectile :=
  let dx : ℝ := tx - x
  let dy : ℝ := ty - y
  let dist : ℝ := Real.sqrt (dx * dx + dy * dy)
  { x := .num x
    y := .num y
    damage := damage
    size := size
    speed := speed
    targetX := .num tx
    targetY := .num ty
    shooterId := shooterId
    targetId := targetId
    damageType := damageType
    vx := jmul (jdiv (.num dx) (.num dist)) (.num (speed : ℝ))
    vy := jmul (jdiv (.num dy) (.num dist)) (.num (speed : ℝ))
    active := true }

/-- HIT_THRESHOLD constant of the source. -/
def HIT_THRESHOLD : ℚ := 5

/-- Projectile.update: advance by the velocity, deactivate out of the canvas
bounds, then the signed componentwise arrival test; on arrival deactivate and
resolve damage by damageType (catapult area scan versus single-target). -/
noncomputable def projUpdate (canvasW canvasH : ℝ) (p : Projectile)
    (units : List UnitState) : Projectile × List UnitState :=
  if p.active = false then (p, units)
  else
    let x1 := jadd p.x p.vx
    let y1 := jadd p.y p.vy
    let active1 :=
      if jlt x1 (.num 0) ∨ jlt (.num canvasW) x1 ∨ jlt y1 (.num 0) ∨ jlt (.num canvasH) y1
      then false else p.active
    let xdif := if jlt p.vx (.num 0) then jsub x1 p.targetX else jsub p.targetX x1
    let ydif := if jlt p.vy (.num 0) then jsub y1 p.targetY else jsub p.targetY y1
    if jle xdif (.num (HIT_THRESHOLD : ℝ)) ∧ jle ydif (.num (HIT_THRESHOLD : ℝ)) then
      if p.damageType = UnitKind.catapult then
        ({ p with x := x1, y := y1, active := false },
          aoeScan x1 y1 (p.size * 4) p.damage p.shooterId 0 units)
      else
        ({ p with x := x1, y := y1, active := false },
          singleTargetResolve x1 y1 p.damage p.targetId units)
    else
      ({ p with x := x1, y := y1, active := active1 }, units)

/-! ### Formation engine -/

/-- FORMATION_UNIT_DISTANCE constant of the source. -/
def FORMATION_UNIT_DISTANCE : ℚ := 20

/-- FORMATION_PIECE_DISTANCE constant of the source. -/
def FORMATION_PIECE_DISTANCE : ℚ := 15

/-- FORMATION_WAIT_PERCENTAGE constant of the source (the double 0.95,
idealized as the exact rational). -/
def FORMATION_WAIT_PERCENTAGE : ℚ := 19 / 20

/-- Formation.getUnitsPerRow. -/
def getUnitsPerRow (n : ℕ) : ℕ := if n ≤ 18 then 6 else if n ≤ 30 then 10 else 14

/-- Rows of a formation piece: Math.ceil(count / unitsPerRow). -/
def pieceRows (n : ℕ) : ℕ := (n + getUnitsPerRow n - 1) / getUnitsPerRow n

/-- Width of a formation piece in the forward direction. -/
def pieceWidth (n : ℕ) : ℚ := (pieceRows n : ℚ) * FORMATION_UNIT_DISTANCE

/-- The local (forward, lateral) slot offsets createFormationPiece computes
for a piece of the given size: the source iterates rows and positions within
a row; here index idx of the flattened loop has row = idx / unitsPerRow and
in-row position idx % unitsPerRow. -/
def pieceSlots (count : ℕ) (offsetX : ℚ) : List (ℚ × ℚ) :=
  (List.range count).map fun idx =>
    let perRow := getUnitsPerRow count
    let row := idx / perRow
    let i := idx % perRow
    let startIdx := row * perRow
    let endIdx := min (startIdx + perRow) count
    let unitsInRow := endIdx - startIdx
    let rowWidth := ((unitsInRow : ℚ) - 1) * FORMATION_UNIT_DISTANCE
    (offsetX - (row : ℚ) * FORMATION_UNIT_DISTANCE,
     -(rowWidth / 2) + (i : ℚ) * FORMATION_UNIT_DISTANCE)

/-- The distinct formationOrder values in ascending order (JS object keys of
unitsByType, explicitly sorted ascending). -/
def sortedOrders (units : List UnitState) : List ℕ :=
  ((units.map fun u => u.formationOrder).dedup).insertionSort (fun a b => a ≤ b)

/-- Total forward width of the formation: piece widths plus the inter-piece
gaps (one less gap than pieces). -/
def totalWidth (units : List UnitState) : ℚ :=
  let orders := sortedOrders units
  ((orders.map fun o =>
    pieceWidth (units.filter fun u => u.formationOrder = o).length).sum) +
    FORMATION_PIECE_DISTANCE * ((orders.length - 1 : ℕ) : ℚ)

/-- The per-piece pass of assignFormationPositions: walk the sorted orders
front to back, pairing each group with its piece slots and advancing the
running offset.  (The source skips the final offset decrement on the last
piece; the decremented value is never read, so the unconditional decrement
assigns the same slots.) -/
def piecesFrom (units : List UnitState) : List ℕ → ℚ → List (UnitState × (ℚ × ℚ))
  | [], _ => []
  | o :: rest, currentOffsetX =>
    let g := units.filter fun u => u.formationOrder = o
    let w := pieceWidth g.length
    let pieceOffsetX := currentOffsetX - (w - FORMATION_UNIT_DISTANCE) / 2
    g.zip (pieceSlots g.length pieceOffsetX) ++
      piecesFrom units rest (currentOffsetX - (w + FORMATION_PIECE_DISTANCE))

/-- The slot layout assignFormationPositions computes: each unit paired with
its fixed local (forward, lateral) offset. -/
def slotAssignment (units : List UnitState) : List (UnitState × (ℚ × ℚ)) :=
  piecesFrom units (sortedOrders units) (totalWidth units / 2)

/-- Formation.rotateLocal. -/
noncomputable def rotateLocal (angle : ℝ) (x y : ℚ) : ℝ × ℝ :=
  ((x : ℝ) * Real.cos angle - (y : ℝ) * Real.sin angle,
   (x : ℝ) * Real.sin angle + (y : ℝ) * Real.cos angle)

/-- Formation.assignFormationPositions: store each unit's local slot (never
recomputed afterwards) and its initial world assembly position, and set the
unit moving toward it. -/
noncomputable def assignFormationPositions (centerX centerY angle : ℝ)
    (units : List UnitState) : List UnitState :=
  units.map fun u =>
    match (slotAssignment units).find? (fun p => p.1.id == u.id) with
    | none => u
    | some (_, s) =>
      let r := rotateLocal angle s.1 s.2
      { u with formationSlot := some s,
               formationPosition := some (centerX + r.1, centerY + r.2),
               targetX := centerX + r.1, targetY := centerY + r.2,
               moving := true }

/-- The formation fields the verified claims touch.  Member units are
recorded by id (the allUnits array of object references). -/
structure FormationState where
  centerX : ℝ
  centerY : ℝ
  angle : ℝ
  memberIds : List ℕ
  targetX : ℚ
  targetY : ℚ
  isMoving : Bool

/-- Formation.getActiveUnits: the members whose inFormation flag is still
set (death does not clear the flag). -/
def getActiveUnits (allUnits : List UnitState) : List UnitState :=
  allUnits.filter fun u => u.inFormation

/-- The tolerance test of checkFormationReady: the unit has a formation
position and its Math.hypot distance to it is below 10. -/
noncomputable def InPosition (u : UnitState) : Prop :=
  match u.formationPosition with
  | none => False
  | some fp => Real.sqrt (((u.x : ℝ) - fp.1) ^ 2 + ((u.y : ℝ) - fp.2) ^ 2) < 10

open Classical in
/-- The unitsInPosition filter of checkFormationReady. -/
noncomputable def unitsInPositionList (active : List UnitState) : List UnitState :=
  active.filter fun u => decide (InPosition u)

open Classical in
/-- checkFormationReady triggers startMoving: a nonempty active member list
whose in-position count reaches activeUnits.length * FORMATION_WAIT_PERCENTAGE. -/
noncomputable def FormationStarts (allUnits : List UnitState) : Prop :=
  getActiveUnits allUnits ≠ [] ∧
  ((unitsInPositionList (getActiveUnits allUnits)).length : ℚ) ≥
    ((getActiveUnits allUnits).length : ℚ) * FORMATION_WAIT_PERCENTAGE

open Classical in
/-- Modelled from the spec, for the C8 comparison: the claim counts only
still-living members, and begins movement when those within tolerance first
reach ceil(N times the wait fraction) of the N living members. -/
noncomputable def ClaimReadiness (allUnits : List UnitState) : Prop :=
  (unitsInPositionList (allUnits.filter fun u => decide (0 < u.hp))).length ≥
    Nat.ceil (((allUnits.filter fun u => decide (0 < u.hp)).length : ℚ) *
      FORMATION_WAIT_PERCENTAGE)

/-- Formation.updateUnitPositions: every member that still has a slot and
the inFormation flag gets its movement target and formation position set
from the current center, and is set moving - whether or not its formation
back-reference was cleared. -/
noncomputable def updateUnitPositions (f : FormationState) (world : List UnitState) :
    List UnitState :=
  world.map fun u =>
    if u.id ∈ f.memberIds then
      match u.formationSlot, u.inFormation with
      | some slot, true =>
        let r := rotateLocal f.angle slot.1 slot.2
        { u with targetX := f.centerX + r.1, targetY := f.centerY + r.2,
                 formationPosition := some (f.centerX + r.1, f.centerY + r.2),
                 moving := true }
      | _, _ => u
    else u

/-- The stop command of the keydown handler: stops movement, clears the
attack target and the formation back-reference - and nothing else. -/
def stopCommand (u : UnitState) : UnitState :=
  { u with targetX := (u.x : ℝ), targetY := (u.y : ℝ), moving := false,
           attackTarget := none, formation := none }

/-- The in-place mutation of the last path waypoint in Unit.setPath. -/
def setLastPoint (p : List Point) (tx ty : ℚ) : List Point :=
  p.dropLast ++ [(tx, ty)]

/-- Unit.setPath: this.path = pathfinder.findPath(...) followed by an
unguarded write to this.path[this.path.length - 1].  When findPath returns
null that write throws a TypeError; the thrown exception is modelled as
none. -/
noncomputable def setPath (cfg : Config) (u : UnitState) (tx ty : ℚ) :
    Option UnitState :=
  match findPath cfg u.x u.y tx ty with
  | none => none
  | some p =>
    some { u with path := some (setLastPoint p tx ty), currentPathIndex := 0,
                  moving := true }

/-! ### Claim theorems: commands and combat -/

/-- A baseline unit fixture with the Knight stats of the source. -/
def defaultUnit : UnitState :=
  { id := 0, kind := .knight, x := 0, y := 0, team := 1, hp := 120, maxHp := 120,
    damage := 25, radius := 8, formationOrder := 1, targetX := 0, targetY := 0,
    attackTarget := none, moving := false, formation := none, inFormation := false,
    formationSlot := none, formationPosition := none, path := none,
    currentPathIndex := 0 }

theorem setPath_none_of_findPath_none (cfg : Config) (u : UnitState) (tx ty : ℚ)
    (h : findPath cfg u.x u.y tx ty = none) : setPath cfg u tx ty = none := by
  unfold setPath
  rw [h]

/-- A 2 by 1 world whose right tile is an obstacle. -/
def cfgBlocked : Config :=
  { canvasWidth := 64, canvasHeight := 32, obstacles := [{ x := 32, y := 0 }] }

def unit4 : UnitState := { defaultUnit with x := 16, y := 16 }

theorem blocked_target : isBlocked cfgBlocked (tileOf 48 16) = true := by
  rw [show tileOf 48 16 = ((1 : ℤ), (0 : ℤ)) from by simp only [tileOf, TILE_SIZE]; norm_num]
  simp only [isBlocked, Config.gridWidth, Config.gridHeight, cfgBlocked, TILE_SIZE]
  norm_num

theorem blocked_findPath : findPath cfgBlocked 16 16 48 16 = none := by
  rw [findPath]
  simp only [blocked_target, if_pos, if_true]
  split
  · rfl
  · rfl

/-- C4: a move command to a blocked destination makes findPath return null,
and setPath dereferences the null path (this.path[this.path.length - 1]),
which throws instead of leaving the unit stationary. -/
theorem C4_setPath_crashes_on_null :
    setPath cfgBlocked unit4 48 16 = none ∧
    findPath cfgBlocked unit4.x unit4.y 48 16 = none := by
  refine ⟨?_, blocked_findPath⟩
  exact setPath_none_of_findPath_none cfgBlocked unit4 48 16 blocked_findPath

/-- Useful sqrt evaluations for the combat fixtures. -/
theorem sqrt_nine : Real.sqrt 9 = 3 := by
  rw [show (9 : ℝ) = 3 ^ 2 by norm_num, Real.sqrt_sq (by norm_num)]

theorem sqrt_sixteen : Real.sqrt 16 = 4 := by
  rw [show (16 : ℝ) = 4 ^ 2 by norm_num, Real.sqrt_sq (by norm_num)]

theorem sqrt_one_r : Real.sqrt 1 = 1 := Real.sqrt_one

/-- The catapult projectile fixture: at its impact point (0,0), aimed there,
about to resolve. -/
def proj5 : Projectile :=
  { x := .num 0, y := .num 0, damage := 50, size := 5 / 2, speed := 2,
    targetX := .num 0, targetY := .num 0, shooterId := 99, targetId := 1,
    damageType := .catapult, vx := .num 0, vy := .num 0, active := true }

def unit5A : UnitState := { defaultUnit with id := 1, x := 3, y := 0, hp := 40, team := 2 }

def unit5B : UnitState := { defaultUnit with id := 2, x := 4, y := 0, hp := 100, team := 2 }

/-- C5: in the area-damage pass, the death and removal of the unit at the
current index makes the forEach skip the unit that slides into the next
index: unit5B is alive, not the shooter, and within the impact radius, yet
the pass leaves it untouched. -/
theorem C5_removal_skips_next_unit :
    (projUpdate 640 480 proj5 [unit5A, unit5B]).2 = [unit5B] ∧
    jlt (jdistM (.num 0) (.num 0) (.num unit5B.x) (.num unit5B.y))
      (.num (proj5.size * 4)) ∧
    unit5B.id ≠ proj5.shooterId ∧ (0 : ℚ) < unit5B.hp := by
  refine ⟨?_, ?_, by decide, by norm_num [unit5B, defaultUnit]⟩
  · rw [projUpdate]
    norm_num [proj5, jadd, jneg, jsub, jlt, jle, HIT_THRESHOLD]
    rw [aoeScan]
    norm_num [jdistM, jadd, jneg, jsub, jmul, jsqrt, jlt, unit5A, unit5B, defaultUnit,
      sqrt_nine, applyDamageAt]
    rw [aoeScan]
    norm_num
  · norm_num [jdistM, jadd, jneg, jsub, jmul, jsqrt, jlt, unit5B, proj5, defaultUnit,
      sqrt_sixteen]

/-- The catapult projectile fixture for C6, shot by unit 99 of team 1. -/
def proj6 : Projectile :=
  { x := .num 0, y := .num 0, damage := 50, size := 5 / 2, speed := 2,
    targetX := .num 0, targetY := .num 0, shooterId := 99, targetId := 1,
    damageType := .catapult, vx := .num 0, vy := .num 0, active := true }

def unit6A : UnitState := { defaultUnit with id := 1, x := 3, y := 0, hp := 10, team := 2 }

def unit6B : UnitState := { defaultUnit with id := 2, x := 4, y := 0, hp := 80, team := 1 }

def unit6C : UnitState := { defaultUnit with id := 99, x := 0, y := 1, hp := 200, team := 1 }

/-- C6: area resolution should damage every live unit within the impact
radius except the shooter, regardless of team.  The shooter (unit6C) is
correctly excluded, but unit6B - alive, in radius, not the shooter - is
skipped, because the unit before it died and was spliced out of the array
mid-scan. -/
theorem C6_area_misses_unit_after_removal :
    (projUpdate 640 480 proj6 [unit6A, unit6B, unit6C]).2 = [unit6B, unit6C] ∧
    jlt (jdistM (.num 0) (.num 0) (.num unit6B.x) (.num unit6B.y))
      (.num (proj6.size * 4)) ∧
    unit6B.id ≠ proj6.shooterId ∧ (0 : ℚ) < unit6B.hp ∧
    unit6B.team ≠ unit6A.team := by
  refine ⟨?_, ?_, by decide, by norm_num [unit6B, defaultUnit], by decide⟩
  · rw [projUpdate]
    norm_num [proj6, jadd, jneg, jsub, jlt, jle, HIT_THRESHOLD]
    rw [aoeScan]
    norm_num [jdistM, jadd, jneg, jsub, jmul, jsqrt, jlt, unit6A, unit6B, unit6C,
      defaultUnit, sqrt_nine, applyDamageAt]
    rw [aoeScan]
    norm_num [jdistM, jadd, jneg, jsub, jmul, jsqrt, jlt, unit6B, unit6C, defaultUnit,
      sqrt_one_r]
    rw [aoeScan]
    norm_num
  · norm_num [jdistM, jadd, jneg, jsub, jmul, jsqrt, jlt, unit6B, proj6, defaultUnit,
      sqrt_sixteen]

/-- Iterated projectile updates against a fixed world (the per-frame filter
keeps a projectile exactly while it stays active). -/
noncomputable def projIter (canvasW canvasH : ℝ) :
    ℕ → Projectile → List UnitState → Projectile × List UnitState
  | 0, p, us => (p, us)
  | n + 1, p, us =>
    projIter canvasW canvasH n (projUpdate canvasW canvasH p us).1
      (projUpdate canvasW canvasH p us).2

theorem jadd_nan_right (a : JNum) : jadd a .nan = .nan := by
  cases a <;> rfl

theorem jsub_nan_right (a : JNum) : jsub a .nan = .nan := by
  cases a <;> rfl

theorem jle_nan_left (b : JNum) : jle .nan b = False := by
  cases b <;> rfl

theorem jlt_nan_left (b : JNum) : jlt .nan b = False := by
  cases b <;> rfl

theorem jlt_nan_right (a : JNum) : jlt a .nan = False := by
  cases a <;> rfl

/-- One update of an active NaN-velocity projectile: position becomes NaN,
no deactivation, no damage. -/
theorem projUpdate_nan (W H : ℝ) (p : Projectile) (us : List UnitState)
    (hvx : p.vx = .nan) (hvy : p.vy = .nan) (hact : p.active = true) :
    projUpdate W H p us =
      ({ p with x := .nan, y := .nan, active := p.active }, us) := by
  rw [projUpdate]
  rw [if_neg (by rw [hact]; exact fun hh => by cases hh)]
  simp only [hvx, hvy, jadd_nan_right, jsub_nan_right]
  rw [if_neg (fun hcc => hcc.1), if_neg (by simp [jlt_nan_left, jlt_nan_right])]

/-- C10: a projectile fired from exactly its target point divides the aiming
vector by a zero distance, so both velocity components are NaN; neither the
out-of-bounds check nor the arrival check ever fires (NaN comparisons are
false), so the projectile stays active - and in the live projectile
collection - forever, and never damages anything. -/
theorem C10_zero_distance_projectile (x y : ℝ) (damage size speed : ℚ)
    (sid tid : ℕ) (kind : UnitKind) (W H : ℝ) (units : List UnitState) (n : ℕ) :
    (mkProjectile x y x y damage size speed sid tid kind).vx = .nan ∧
    (mkProjectile x y x y damage size speed sid tid kind).vy = .nan ∧
    (projIter W H n (mkProjectile x y x y damage size speed sid tid kind) units).1.active
      = true ∧
    (projIter W H n (mkProjectile x y x y damage size speed sid tid kind) units).2
      = units := by
  have hsq : Real.sqrt ((x - x) * (x - x) + (y - y) * (y - y)) = 0 := by
    norm_num [Real.sqrt_zero]
  have hvx : (mkProjectile x y x y damage size speed sid tid kind).vx = .nan := by
    simp only [mkProjectile, hsq, jdiv, jmul]
    norm_num
  have hvy : (mkProjectile x y x y damage size speed sid tid kind).vy = .nan := by
    simp only [mkProjectile, hsq, jdiv, jmul]
    norm_num
  refine ⟨hvx, hvy, ?_⟩
  have key : ∀ (m : ℕ) (q : Projectile) (us : List UnitState),
      q.vx = .nan → q.vy = .nan → q.active = true →
      (projIter W H m q us).1.active = true ∧ (projIter W H m q us).2 = us := by
    intro m
    induction m with
    | zero => intro q us _ _ hact; exact ⟨hact, rfl⟩
    | succ m ih =>
      intro q us hvx1 hvy1 hact
      rw [projIter]
      rw [projUpdate_nan W H q us hvx1 hvy1 hact]
      exact ih _ us hvx1 hvy1 hact
  exact key n _ units hvx hvy rfl

/-- C8, amended: checkFormationReady starts the formation exactly when the
members still flagged as in-formation (a flag death never clears) are
nonempty and the count of them within the position tolerance reaches
ceil(N * FORMATION_WAIT_PERCENTAGE) of the flagged count N. -/
theorem C8_threshold_iff (allUnits : List UnitState) :
    FormationStarts allUnits ↔
      (getActiveUnits allUnits ≠ [] ∧
       Nat.ceil (((getActiveUnits allUnits).length : ℚ) * FORMATION_WAIT_PERCENTAGE) ≤
         (unitsInPositionList (getActiveUnits allUnits)).length) := by
  unfold FormationStarts
  constructor
  · rintro ⟨h1, h2⟩
    exact ⟨h1, Nat.ceil_le.mpr h2⟩
  · rintro ⟨h1, h2⟩
    exact ⟨h1, Nat.ceil_le.mp h2⟩

def unit8dead : UnitState :=
  { defaultUnit with
    id := 1, hp := 0, inFormation := true, x := 1000, y := 0,
    formationPosition := some (0, 0) }

def unit8alive : UnitState :=
  { defaultUnit with
    id := 2, hp := 100, inFormation := true, x := 0, y := 0,
    formationPosition := some (0, 0) }

theorem sqrt_million : Real.sqrt 1000000 = 1000 := by
  rw [show (1000000 : ℝ) = 1000 ^ 2 by norm_num, Real.sqrt_sq (by norm_num)]

theorem inPosition_alive : InPosition unit8alive := by
  simp only [InPosition, unit8alive, defaultUnit]
  norm_num

theorem not_inPosition_dead : ¬ InPosition unit8dead := by
  simp only [InPosition, unit8dead, defaultUnit]
  norm_num [sqrt_million]

/-- C8, counterexample: one dead member far from its slot and one living
member on its slot.  By the claim the still-living count is N = 1 and the
formation should begin moving (1 >= ceil(0.95)), but the code counts the
dead member too (its inFormation flag is never cleared) and does not start
(1 < 2 * 0.95). -/
theorem C8_counterexample :
    ¬ FormationStarts [unit8dead, unit8alive] ∧
    ClaimReadiness [unit8dead, unit8alive] := by
  have hact : getActiveUnits [unit8dead, unit8alive] = [unit8dead, unit8alive] := rfl
  have hpos : unitsInPositionList [unit8dead, unit8alive] = [unit8alive] := by
    simp [unitsInPositionList, List.filter, not_inPosition_dead, inPosition_alive]
  constructor
  · intro hstart
    rcases hstart with ⟨_, h2⟩
    rw [hact, hpos] at h2
    simp only [List.length_cons, List.length_nil, FORMATION_WAIT_PERCENTAGE] at h2
    norm_num at h2
  · unfold ClaimReadiness
    have hliving : ([unit8dead, unit8alive].filter fun u => decide (0 < u.hp))
        = [unit8alive] := by
      simp [List.filter, unit8dead, unit8alive, defaultUnit]
    rw [hliving]
    have hpos2 : unitsInPositionList [unit8alive] = [unit8alive] := by
      simp [unitsInPositionList, List.filter, inPosition_alive]
    rw [hpos2]
    simp only [List.length_cons, List.length_nil]
    exact Nat.ceil_le.mpr (by norm_num [FORMATION_WAIT_PERCENTAGE])

/-- C9, amended: the stop command stops movement and clears the attack
target and the formation back-reference, but leaves the formation slot, the
formation position and the inFormation flag in place; consequently a
formation that still updates (because other members reference it) sets the
stopped unit moving toward its slot again. -/
theorem C9_stop_keeps_formation_drive (u : UnitState) (f : FormationState)
    (slot : ℚ × ℚ) (hmem : u.id ∈ f.memberIds) (hslot : u.formationSlot = some slot)
    (hflag : u.inFormation = true) :
    (stopCommand u).moving = false ∧
    (stopCommand u).attackTarget = none ∧
    (stopCommand u).formation = none ∧
    (stopCommand u).formationSlot = u.formationSlot ∧
    (stopCommand u).inFormation = u.inFormation ∧
    (updateUnitPositions f [stopCommand u]).map (fun v => v.moving) = [true] ∧
    (updateUnitPositions f [stopCommand u]).map (fun v => v.targetX) =
      [f.centerX + (rotateLocal f.angle slot.1 slot.2).1] := by
  have e1 : (stopCommand u).formationSlot = some slot := hslot
  have e2 : (stopCommand u).inFormation = true := hflag
  have hmem1 : (stopCommand u).id ∈ f.memberIds := hmem
  refine ⟨rfl, rfl, rfl, rfl, rfl, ?_, ?_⟩
  all_goals
    simp only [updateUnitPositions, List.map_cons, List.map_nil, e1, e2, if_pos hmem1]

/-- The identity and formation-rank data the slot layout depends on. -/
def idOrder (u : UnitState) : ℕ × ℕ := (u.id, u.formationOrder)

/-- The observable content of a slot assignment: each unit's identity and
rank with its local offset. -/
def slotsView (l : List (UnitState × (ℚ × ℚ))) : List ((ℕ × ℕ) × (ℚ × ℚ)) :=
  l.map fun p => (idOrder p.1, p.2)

theorem map_order_of_map_idOrder {us vs : List UnitState}
    (h : us.map idOrder = vs.map idOrder) :
    (us.map fun u => u.formationOrder) = vs.map fun u => u.formationOrder := by
  have h2 := congrArg (List.map Prod.snd) h
  simpa [List.map_map, Function.comp, idOrder] using h2

theorem filter_map_idOrder {us vs : List UnitState}
    (h : us.map idOrder = vs.map idOrder) (o : ℕ) :
    ((us.filter fun u => u.formationOrder = o).map idOrder) =
      ((vs.filter fun u => u.formationOrder = o).map idOrder) := by
  induction us generalizing vs with
  | nil =>
    cases vs with
    | nil => rfl
    | cons b bs => simp at h
  | cons a as ih =>
    cases vs with
    | nil => simp at h
    | cons b bs =>
      simp only [List.map_cons, List.cons.injEq] at h
      obtain ⟨hab, ht⟩ := h
      have horder : a.formationOrder = b.formationOrder := congrArg Prod.snd hab
      by_cases ho : b.formationOrder = o
      · simp [List.filter_cons, horder, ho, ih ht, hab]
      · simp [List.filter_cons, horder, ho, ih ht]

theorem zip_map_idOrder {g1 g2 : List UnitState}
    (h : g1.map idOrder = g2.map idOrder) (s : List (ℚ × ℚ)) :
    slotsView (g1.zip s) = slotsView (g2.zip s) := by
  induction g1 generalizing g2 s with
  | nil =>
    cases g2 with
    | nil => rfl
    | cons b bs => simp at h
  | cons a as ih =>
    cases g2 with
    | nil => simp at h
    | cons b bs =>
      simp only [List.map_cons, List.cons.injEq] at h
      obtain ⟨hab, ht⟩ := h
      cases s with
      | nil => rfl
      | cons p ps =>
        simp only [List.zip_cons_cons, slotsView, List.map_cons, List.cons.injEq]
        exact ⟨by rw [hab], ih ht ps⟩

theorem piecesFrom_congr {us vs : List UnitState}
    (h : us.map idOrder = vs.map idOrder) :
    ∀ (orders : List ℕ) (off : ℚ),
      slotsView (piecesFrom us orders off) = slotsView (piecesFrom vs orders off) := by
  intro orders
  induction orders with
  | nil => intro off; rfl
  | cons o rest ih =>
    intro off
    have hg := filter_map_idOrder h o
    have hlen : (us.filter fun u => u.formationOrder = o).length =
        (vs.filter fun u => u.formationOrder = o).length := by
      have := congrArg List.length hg
      simpa using this
    simp only [piecesFrom, slotsView, List.map_append]
    rw [hlen]
    congr 1
    · have := zip_map_idOrder hg
        (pieceSlots (vs.filter fun u => u.formationOrder = o).length
          (off - (pieceWidth (vs.filter fun u => u.formationOrder = o).length -
            FORMATION_UNIT_DISTANCE) / 2))
      simpa [slotsView] using this
    · have := ih (off - (pieceWidth (vs.filter fun u => u.formationOrder = o).length +
        FORMATION_PIECE_DISTANCE))
      simpa [slotsView] using this

theorem sortedOrders_congr {us vs : List UnitState}
    (h : us.map idOrder = vs.map idOrder) : sortedOrders us = sortedOrders vs := by
  unfold sortedOrders
  rw [map_order_of_map_idOrder h]

theorem totalWidth_congr {us vs : List UnitState}
    (h : us.map idOrder = vs.map idOrder) : totalWidth us = totalWidth vs := by
  unfold totalWidth
  rw [sortedOrders_congr h]
  have hlen : ∀ o, (us.filter fun u => u.formationOrder = o).length =
      (vs.filter fun u => u.formationOrder = o).length := by
    intro o
    have := congrArg List.length (filter_map_idOrder h o)
    simpa using this
  simp only [hlen]

theorem slotAssignment_congr {us vs : List UnitState}
    (h : us.map idOrder = vs.map idOrder) :
    slotsView (slotAssignment us) = slotsView (slotAssignment vs) := by
  unfold slotAssignment
  rw [sortedOrders_congr h, totalWidth_congr h]
  exact piecesFrom_congr h _ _

theorem assign_preserves_idOrder (cx cy a : ℝ) (units : List UnitState) :
    (assignFormationPositions cx cy a units).map idOrder = units.map idOrder := by
  unfold assignFormationPositions
  rw [List.map_map]
  apply List.map_congr_left
  intro u _
  simp only [Function.comp]
  cases hf : (slotAssignment units).find? (fun p => p.1.id == u.id) with
  | none => rfl
  | some pr => rfl

/-- C7: formation slot assignment is deterministic and stable.  The layout
depends only on each member's identity and formation rank, so re-running it
(in particular after assignFormationPositions itself has run) yields the
same local offsets; and neither a death (takeDamage removal) nor a tick of
updateUnitPositions changes any surviving unit's stored slot. -/
theorem C7_slot_assignment_stable :
    (∀ us vs : List UnitState, us.map idOrder = vs.map idOrder →
      slotsView (slotAssignment us) = slotsView (slotAssignment vs)) ∧
    (∀ (cx cy a : ℝ) (units : List UnitState),
      slotsView (slotAssignment (assignFormationPositions cx cy a units)) =
        slotsView (slotAssignment units)) ∧
    (∀ (units : List UnitState) (k : ℕ) (dmg : ℚ),
      ∀ v ∈ applyDamageAt units k dmg,
        ∃ u ∈ units, v.id = u.id ∧ v.formationSlot = u.formationSlot) ∧
    (∀ (f : FormationState) (world : List UnitState),
      ∀ v ∈ updateUnitPositions f world,
        ∃ u ∈ world, v.id = u.id ∧ v.formationSlot = u.formationSlot) := by
  refine ⟨fun us vs h => slotAssignment_congr h,
    fun cx cy a units => slotAssignment_congr (assign_preserves_idOrder cx cy a units),
    ?_, ?_⟩
  · intro units k dmg v hv
    cases hg : units.get? k with
    | none =>
      simp only [applyDamageAt, hg] at hv
      exact ⟨v, hv, rfl, rfl⟩
    | some u =>
      simp only [applyDamageAt, hg] at hv
      by_cases hd : u.hp - dmg ≤ 0
      · rw [if_pos hd] at hv
        exact ⟨v, List.mem_of_mem_eraseIdx hv, rfl, rfl⟩
      · rw [if_neg hd] at hv
        rcases List.mem_or_eq_of_mem_set hv with hmem | heq
        · exact ⟨v, hmem, rfl, rfl⟩
        · exact ⟨u, List.get?_mem hg, by rw [heq], by rw [heq]⟩
  · intro f world v hv
    rcases List.mem_map.mp hv with ⟨u, hu, heq⟩
    refine ⟨u, hu, ?_, ?_⟩
    all_goals
      rw [← heq]
      by_cases hm : u.id ∈ f.memberIds
      · rw [if_pos hm]
        rcases hs : u.formationSlot with _ | s <;> rcases hi : u.inFormation <;> simp [hs, hi]
      · rw [if_neg hm]

def unit9 : UnitState :=
  { defaultUnit with
    id := 5, x := 5, y := 5, formation := some 7,
    inFormation := true, formationSlot := some (0, 0),
    formationPosition := some (0, 0), moving := true }

def form9 : FormationState :=
  { centerX := 100, centerY := 200, angle := 0, memberIds := [5, 6],
    targetX := 300, targetY := 200, isMoving := true }

/-- C9, counterexample: after a stop command the unit's formation slot and
inFormation flag survive, and one tick of the still-referenced formation's
updateUnitPositions sets the unit moving again with its target at the
formation center plus its slot - the formation still drives the unit. -/
theorem C9_counterexample :
    (stopCommand unit9).formation = none ∧
    (stopCommand unit9).moving = false ∧
    (stopCommand unit9).formationSlot = some (0, 0) ∧
    (stopCommand unit9).inFormation = true ∧
    (updateUnitPositions form9 [stopCommand unit9]).map (fun v => v.moving) = [true] ∧
    (updateUnitPositions form9 [stopCommand unit9]).map (fun v => v.targetX) =
      [(100 : ℝ)] := by
  have e1 : (stopCommand unit9).formationSlot = some ((0 : ℚ), (0 : ℚ)) := rfl
  have e2 : (stopCommand unit9).inFormation = true := rfl
  have hmem1 : (stopCommand unit9).id ∈ form9.memberIds := by
    simp [stopCommand, unit9, form9, defaultUnit]
  refine ⟨rfl, rfl, rfl, rfl, ?_, ?_⟩
  all_goals
    simp only [updateUnitPositions, List.map_cons, List.map_nil, e1, e2, if_pos hmem1,
      rotateLocal, form9]
    norm_num [stopCommand, unit9, defaultUnit]


/-- Witness for C9: the stop command applied to a concrete formation member
leaves its slot and flag in place and the formation still drives it. -/
theorem C9_stop_keeps_formation_drive_witness :
    unit9.id ∈ form9.memberIds ∧ unit9.formationSlot = some ((0 : ℚ), (0 : ℚ)) ∧
    unit9.inFormation = true ∧
    ((stopCommand unit9).moving = false ∧
     (stopCommand unit9).attackTarget = none ∧
     (stopCommand unit9).formation = none ∧
     (stopCommand unit9).formationSlot = unit9.formationSlot ∧
     (stopCommand unit9).inFormation = unit9.inFormation ∧
     (updateUnitPositions form9 [stopCommand unit9]).map (fun v => v.moving) = [true] ∧
     (updateUnitPositions form9 [stopCommand unit9]).map (fun v => v.targetX) =
       [form9.centerX + (rotateLocal form9.angle 0 0).1]) :=
  ⟨by decide, rfl, rfl,
    C9_stop_keeps_formation_drive unit9 form9 (0, 0) (by decide) rfl rfl⟩


/-! ### Geometry of the heuristic and the step costs -/

/-- A grid cell as a complex number, to get the triangle inequality for the
Euclidean heuristic. -/
noncomputable def cellC (c : Cell) : ℂ := ⟨(c.1 : ℝ), (c.2 : ℝ)⟩

theorem heuristic_eq_abs (a b : Cell) :
    heuristic a b = Complex.abs (cellC a - cellC b) := by
  have hre : (cellC a - cellC b).re = ((a.1 - b.1 : ℤ) : ℝ) := by
    simp only [Complex.sub_re, cellC]
    push_cast
    ring
  have him : (cellC a - cellC b).im = ((a.2 - b.2 : ℤ) : ℝ) := by
    simp only [Complex.sub_im, cellC]
    push_cast
    ring
  rw [Complex.abs_apply, Complex.normSq_apply, hre, him]
  unfold heuristic
  rw [sq, sq]

theorem heuristic_nonneg (a b : Cell) : 0 ≤ heuristic a b := Real.sqrt_nonneg _

theorem stepCost_nonneg (d : Cell) : 0 ≤ stepCost d := by
  unfold stepCost
  split
  · norm_num
  · exact Real.sqrt_nonneg 2

theorem one_le_stepCost (d : Cell) : 1 ≤ stepCost d := by
  unfold stepCost
  split
  · exact le_refl 1
  · rw [show (1 : ℝ) = Real.sqrt 1 from Real.sqrt_one.symm]
    exact Real.sqrt_le_sqrt (by norm_num)

theorem stepCost_pos (d : Cell) : 0 < stepCost d :=
  lt_of_lt_of_le one_pos (one_le_stepCost d)

theorem stepCost_eq_abs (a b : Cell) (hd : (b.1 - a.1, b.2 - a.2) ∈ neighborDirs) :
    stepCost (b.1 - a.1, b.2 - a.2) = Complex.abs (cellC b - cellC a) := by
  have habs : Complex.abs (cellC b - cellC a) =
      Real.sqrt (((b.1 - a.1 : ℤ) : ℝ) ^ 2 + ((b.2 - a.2 : ℤ) : ℝ) ^ 2) := by
    have hre : (cellC b - cellC a).re = ((b.1 - a.1 : ℤ) : ℝ) := by
      simp only [Complex.sub_re, cellC]
      push_cast
      ring
    have him : (cellC b - cellC a).im = ((b.2 - a.2 : ℤ) : ℝ) := by
      simp only [Complex.sub_im, cellC]
      push_cast
      ring
    rw [Complex.abs_apply, Complex.normSq_apply, hre, him, sq, sq]
  rw [habs]
  simp only [neighborDirs, List.mem_cons, List.not_mem_nil, or_false,
    Prod.mk.injEq] at hd
  rcases hd with ⟨h1, h2⟩ | ⟨h1, h2⟩ | ⟨h1, h2⟩ | ⟨h1, h2⟩ | ⟨h1, h2⟩ | ⟨h1, h2⟩ |
    ⟨h1, h2⟩ | ⟨h1, h2⟩ <;>
    rw [h1, h2] <;> unfold stepCost <;> norm_num

theorem heuristic_consistent (a b c : Cell)
    (hd : (b.1 - a.1, b.2 - a.2) ∈ neighborDirs) :
    heuristic a c ≤ stepCost (b.1 - a.1, b.2 - a.2) + heuristic b c := by
  rw [heuristic_eq_abs a c, heuristic_eq_abs b c, stepCost_eq_abs a b hd]
  have htri : Complex.abs (cellC a - cellC c) ≤
      Complex.abs (cellC a - cellC b) + Complex.abs (cellC b - cellC c) :=
    Complex.abs.sub_le _ _ _
  have hcomm : Complex.abs (cellC a - cellC b) = Complex.abs (cellC b - cellC a) :=
    Complex.abs.map_sub _ _
  linarith

/-! ### Route algebra -/

theorem routeCost_nonneg (r : List Cell) : 0 ≤ routeCost r := by
  induction r with
  | nil => simp [routeCost]
  | cons a rest ih =>
    cases rest with
    | nil => simp [routeCost]
    | cons b rest2 =>
      rw [routeCost]
      exact add_nonneg (stepCost_nonneg _) ih

theorem routeCost_concat (r : List Cell) (v w : Cell) (hlast : r.getLast? = some v) :
    routeCost (r ++ [w]) = routeCost r + stepCost (w.1 - v.1, w.2 - v.2) := by
  induction r with
  | nil => simp at hlast
  | cons a rest ih =>
    cases rest with
    | nil =>
      simp only [List.getLast?_singleton, Option.some.injEq] at hlast
      subst hlast
      simp only [List.cons_append, List.nil_append, routeCost]
      ring
    | cons b rest2 =>
      have hlast2 : (b :: rest2).getLast? = some v := by
        rwa [List.getLast?_cons_cons] at hlast
      have hstep : (a :: b :: rest2) ++ [w] = a :: ((b :: rest2) ++ [w]) := rfl
      rw [hstep]
      have hunfold : routeCost (a :: ((b :: rest2) ++ [w])) =
          stepCost (b.1 - a.1, b.2 - a.2) + routeCost ((b :: rest2) ++ [w]) := rfl
      rw [hunfold, ih hlast2, routeCost]
      ring

theorem validRoute_single (cfg : Config) (s : Cell) (hs : isBlocked cfg s = false) :
    ValidRoute cfg s s [s] := ⟨rfl, rfl, hs, List.chain'_singleton s⟩

theorem validRoute_ne_nil {cfg : Config} {s t : Cell} {r : List Cell}
    (h : ValidRoute cfg s t r) : r ≠ [] := by
  intro he
  rw [he] at h
  exact absurd h.1 (by simp)

theorem validRoute_extend {cfg : Config} {s v w : Cell} {r : List Cell}
    (h : ValidRoute cfg s v r) (hstep : AllowedStep cfg v w) :
    ValidRoute cfg s w (r ++ [w]) := by
  obtain ⟨hh, hl, hs, hc⟩ := h
  cases r with
  | nil => simp at hh
  | cons a r2 =>
    simp only [List.head?_cons, Option.some.injEq] at hh
    refine ⟨?_, ?_, hs, ?_⟩
    · rw [show (a :: r2) ++ [w] = a :: (r2 ++ [w]) from rfl, List.head?_cons, hh]
    · exact List.getLast?_concat _
    · rw [List.chain'_append]
      refine ⟨hc, List.chain'_singleton w, ?_⟩
      intro x hx y hy
      rw [hl] at hx
      have hx2 : v = x := by simpa using hx
      have hy2 : w = y := by simpa using hy
      rw [← hx2, ← hy2]
      exact hstep

theorem validRoute_drop_last {cfg : Config} {s w : Cell} {r : List Cell} (hr : r ≠ [])
    (h : ValidRoute cfg s w (r ++ [w])) :
    ∃ u, r.getLast? = some u ∧ AllowedStep cfg u w ∧ ValidRoute cfg s u r := by
  obtain ⟨hh, hl, hs, hc⟩ := h
  cases hq : r.getLast? with
  | none =>
    exact absurd (List.getLast?_eq_none_iff.mp hq) hr
  | some u =>
    rw [List.chain'_append] at hc
    obtain ⟨hc1, _, hrel⟩ := hc
    refine ⟨u, rfl, hrel u (by rw [hq]; rfl) w (by rfl), ?_, hq, hs, hc1⟩
    cases r with
    | nil => exact absurd rfl hr
    | cons a r2 =>
      rw [show (a :: r2) ++ [w] = a :: (r2 ++ [w]) from rfl, List.head?_cons] at hh
      rw [List.head?_cons, hh]


/-! ### The A* search invariant -/

/-- A cell is settled when it carries a finite gScore and is no longer in
the open heap: the source never touches such a cell's score again. -/
def Settled (st : AState) (v : Cell) : Prop :=
  st.gScore v < ⊤ ∧ v ∉ st.openHeap

/-- The in-bounds cells of the grid. -/
def cells (cfg : Config) : Finset Cell :=
  Finset.Icc 0 (cfg.gridWidth - 1) ×ˢ Finset.Icc 0 (cfg.gridHeight - 1)

theorem mem_cells {cfg : Config} {c : Cell} :
    c ∈ cells cfg ↔
      (0 ≤ c.1 ∧ c.1 ≤ cfg.gridWidth - 1) ∧ (0 ≤ c.2 ∧ c.2 ≤ cfg.gridHeight - 1) := by
  unfold cells
  rw [Finset.mem_product, Finset.mem_Icc, Finset.mem_Icc]

theorem mem_cells_of_unblocked {cfg : Config} {c : Cell}
    (h : isBlocked cfg c = false) : c ∈ cells cfg := by
  have hb := not_oob_of_isBlocked_false h
  rw [mem_cells]
  push_neg at hb
  omega

theorem card_cells (cfg : Config) :
    (cells cfg).card = cfg.gridWidth.toNat * cfg.gridHeight.toNat := by
  unfold cells
  rw [Finset.card_product, Int.card_Icc, Int.card_Icc]
  congr 1 <;> omega

theorem card_cells_le (cfg : Config) :
    (cells cfg).card ≤ (cfg.gridWidth * cfg.gridHeight).toNat := by
  rw [card_cells]
  rcases le_or_lt cfg.gridWidth 0 with hw | hw
  · simp [Int.toNat_of_nonpos hw]
  · rcases le_or_lt cfg.gridHeight 0 with hh | hh
    · simp [Int.toNat_of_nonpos hh]
    · have hm : (0 : ℤ) ≤ cfg.gridWidth * cfg.gridHeight := mul_nonneg hw.le hh.le
      rw [Int.le_toNat hm]
      push_cast [Int.toNat_of_nonneg hw.le, Int.toNat_of_nonneg hh.le]
      exact le_refl _

/-- The invariant fields that do not mention full relaxation of settled
cells; these survive every intermediate state of the neighbor loop. -/
structure Core (cfg : Config) (s t : Cell) (st : AState) : Prop where
  nodup : st.openHeap.Nodup
  openG : ∀ v ∈ st.openHeap, st.gScore v < ⊤
  fEq : ∀ v, st.fScore v = st.gScore v + ((heuristic v t : ℝ) : WithTop ℝ)
  gs0 : st.gScore s = ((0 : ℝ) : WithTop ℝ)
  gUnb : ∀ v, st.gScore v < ⊤ → isBlocked cfg v = false
  gRoute : ∀ v, st.gScore v < ⊤ →
    ∃ r, ValidRoute cfg s v r ∧ ((routeCost r : ℝ) : WithTop ℝ) ≤ st.gScore v
  settledOpt : ∀ v, Settled st v → ∀ r, ValidRoute cfg s v r →
    st.gScore v ≤ ((routeCost r : ℝ) : WithTop ℝ)
  tFree : ¬ Settled st t
  parent : ∀ v w, st.cameFrom v = some w → Settled st w ∧ AllowedStep cfg w v ∧
    st.gScore v = st.gScore w + ((stepCost (v.1 - w.1, v.2 - w.2) : ℝ) : WithTop ℝ)
  gOrigin : ∀ v, st.gScore v < ⊤ → v = s ∨ st.cameFrom v ≠ none

/-- Full relaxation of one settled cell: each of its allowed steps lands on
a settled or open cell whose gScore respects the step. -/
def FRat (cfg : Config) (st : AState) (v : Cell) : Prop :=
  Settled st v → ∀ w, AllowedStep cfg v w →
    (Settled st w ∨ w ∈ st.openHeap) ∧
    st.gScore w ≤ st.gScore v + ((stepCost (w.1 - v.1, w.2 - v.2) : ℝ) : WithTop ℝ)

/-- The loop invariant: the core fields plus full relaxation of every
settled cell. -/
def Inv (cfg : Config) (s t : Cell) (st : AState) : Prop :=
  Core cfg s t st ∧ ∀ v, FRat cfg st v

theorem core_gNonneg {cfg : Config} {s t : Cell} {st : AState}
    (hc : Core cfg s t st) (v : Cell) : ((0 : ℝ) : WithTop ℝ) ≤ st.gScore v := by
  rcases eq_or_ne (st.gScore v) ⊤ with hv | hv
  · rw [hv]
    exact le_top
  · obtain ⟨r, _, hcost⟩ := hc.gRoute v (lt_top_iff_ne_top.mpr hv)
    refine le_trans ?_ hcost
    exact_mod_cast routeCost_nonneg r

theorem core_sNoParent {cfg : Config} {s t : Cell} {st : AState}
    (hc : Core cfg s t st) : st.cameFrom s = none := by
  cases hq : st.cameFrom s with
  | none => rfl
  | some w =>
    obtain ⟨hw, _, heq⟩ := hc.parent s w hq
    rw [hc.gs0] at heq
    obtain ⟨gw, hgw⟩ := WithTop.ne_top_iff_exists.mp hw.1.ne
    rw [← hgw, wt_coe_sum] at heq
    have h0 : (0 : ℝ) = gw + stepCost (s.1 - w.1, s.2 - w.2) := by exact_mod_cast heq
    have hgw0 : (0 : ℝ) ≤ gw := by
      have := core_gNonneg hc w
      rw [← hgw] at this
      exact_mod_cast this
    have := one_le_stepCost (s.1 - w.1, s.2 - w.2)
    linarith

/-! ### The open-heap scan -/

theorem bestScan_none (f : Cell → WithTop ℝ) :
    ∀ (l : List Cell) (i0 : ℕ) (best : Option (ℕ × Cell)) (bestF : WithTop ℝ),
      bestScan f l i0 best bestF = none → best = none ∧ ∀ w ∈ l, ¬ f w < bestF := by
  intro l
  induction l with
  | nil =>
    intro i0 best bestF h
    rw [bestScan] at h
    exact ⟨h, by simp⟩
  | cons k rest ih =>
    intro i0 best bestF h
    rw [bestScan] at h
    by_cases hk : f k < bestF
    · rw [if_pos hk] at h
      obtain ⟨hb, -⟩ := ih _ _ _ h
      cases hb
    · rw [if_neg hk] at h
      obtain ⟨hb, hrest⟩ := ih _ _ _ h
      refine ⟨hb, ?_⟩
      intro w hw
      rcases List.mem_cons.mp hw with rfl | hw2
      · exact hk
      · exact hrest w hw2

theorem bestScan_sound (f : Cell → WithTop ℝ) :
    ∀ (l : List Cell) (i0 : ℕ) (best : Option (ℕ × Cell)) (bestF : WithTop ℝ)
      (j : ℕ) (u : Cell),
      bestScan f l i0 best bestF = some (j, u) →
      (best = some (j, u) ∧ ∀ w ∈ l, bestF ≤ f w) ∨
      (f u < bestF ∧ i0 ≤ j ∧ l.get? (j - i0) = some u ∧ ∀ w ∈ l, f u ≤ f w) := by
  intro l
  induction l with
  | nil =>
    intro i0 best bestF j u h
    rw [bestScan] at h
    exact Or.inl ⟨h, by simp⟩
  | cons k rest ih =>
    intro i0 best bestF j u h
    rw [bestScan] at h
    by_cases hk : f k < bestF
    · rw [if_pos hk] at h
      rcases ih _ _ _ _ _ h with ⟨hb, hall⟩ | ⟨hfu, hij, hget, hall⟩
      · have hji : i0 = j ∧ k = u := by
          have hb2 := hb.symm
          rw [Option.some.injEq, Prod.mk.injEq] at hb2
          exact ⟨hb2.1.symm, hb2.2.symm⟩
        obtain ⟨hji1, hji2⟩ := hji
        right
        refine ⟨hji2 ▸ hk, le_of_eq hji1, ?_, ?_⟩
        · rw [← hji1, Nat.sub_self]
          rw [← hji2]
          rfl
        · intro w hw
          rcases List.mem_cons.mp hw with rfl | hw2
          · rw [hji2]
          · rw [← hji2]
            exact hall w hw2
      · right
        refine ⟨lt_trans hfu hk, by omega, ?_, ?_⟩
        · have hidx : j - i0 = (j - (i0 + 1)) + 1 := by omega
          rw [hidx]
          exact hget
        · intro w hw
          rcases List.mem_cons.mp hw with rfl | hw2
          · exact le_of_lt hfu
          · exact hall w hw2
    · rw [if_neg hk] at h
      rcases ih _ _ _ _ _ h with ⟨hb, hall⟩ | ⟨hfu, hij, hget, hall⟩
      · left
        refine ⟨hb, ?_⟩
        intro w hw
        rcases List.mem_cons.mp hw with rfl | hw2
        · exact not_lt.mp hk
        · exact hall w hw2
      · right
        refine ⟨hfu, by omega, ?_, ?_⟩
        · have hidx : j - i0 = (j - (i0 + 1)) + 1 := by omega
          rw [hidx]
          exact hget
        · intro w hw
          rcases List.mem_cons.mp hw with rfl | hw2
          · exact le_trans (le_of_lt hfu) (not_lt.mp hk)
          · exact hall w hw2

theorem selectBest_spec {st : AState} {j : ℕ} {u : Cell}
    (h : selectBest st = some (j, u)) :
    st.openHeap.get? j = some u ∧ ∀ w ∈ st.openHeap, st.fScore u ≤ st.fScore w := by
  unfold selectBest at h
  rcases bestScan_sound st.fScore st.openHeap 0 none ⊤ j u h with ⟨hb, -⟩ |
    ⟨-, -, hget, hall⟩
  · cases hb
  · rw [Nat.sub_zero] at hget
    exact ⟨hget, hall⟩

theorem selectBest_isSome {st : AState} (hne : st.openHeap ≠ [])
    (hf : ∀ w ∈ st.openHeap, st.fScore w < ⊤) : ∃ p, selectBest st = some p := by
  cases hq : selectBest st with
  | some p => exact ⟨p, rfl⟩
  | none =>
    exfalso
    unfold selectBest at hq
    obtain ⟨-, hall⟩ := bestScan_none st.fScore st.openHeap 0 none ⊤ hq
    cases hh : st.openHeap with
    | nil => exact hne hh
    | cons k rest =>
      have hk : k ∈ st.openHeap := by
        rw [hh]
        exact List.mem_cons_self _ _
      exact hall k hk (hf k hk)

/-! ### eraseIdx membership -/

theorem mem_eraseIdx_of_ne {α : Type} :
    ∀ (l : List α) (i : ℕ) (u v : α),
      l.get? i = some u → v ∈ l → v ≠ u → v ∈ l.eraseIdx i := by
  intro l
  induction l with
  | nil =>
    intro i u v h
    simp at h
  | cons a rest ih =>
    intro i u v hget hv hne
    cases i with
    | zero =>
      have ha : a = u := by
        have : some a = some u := hget
        exact Option.some.inj this
      rw [List.eraseIdx_cons_zero]
      rcases List.mem_cons.mp hv with rfl | h2
      · exact absurd ha hne
      · exact h2
    | succ k =>
      rw [List.eraseIdx_cons_succ]
      rcases List.mem_cons.mp hv with rfl | h2
      · exact List.mem_cons_self _ _
      · exact List.mem_cons_of_mem _ (ih k u v hget h2 hne)

theorem not_mem_eraseIdx_self {α : Type} :
    ∀ (l : List α) (i : ℕ) (u : α),
      l.Nodup → l.get? i = some u → u ∉ l.eraseIdx i := by
  intro l
  induction l with
  | nil =>
    intro i u _ h
    simp at h
  | cons a rest ih =>
    intro i u hnd hget
    obtain ⟨hna, hnd2⟩ := List.nodup_cons.mp hnd
    cases i with
    | zero =>
      have ha : a = u := Option.some.inj hget
      rw [List.eraseIdx_cons_zero, ← ha]
      exact hna
    | succ k =>
      rw [List.eraseIdx_cons_succ]
      intro hmem
      rcases List.mem_cons.mp hmem with rfl | h2
      · exact hna (List.get?_mem hget)
      · exact ih k u hnd2 hget h2

theorem nodup_eraseIdx {α : Type} :
    ∀ (l : List α) (i : ℕ), l.Nodup → (l.eraseIdx i).Nodup := by
  intro l
  induction l with
  | nil =>
    intro i _
    simp
  | cons a rest ih =>
    intro i hnd
    obtain ⟨hna, hnd2⟩ := List.nodup_cons.mp hnd
    cases i with
    | zero =>
      rw [List.eraseIdx_cons_zero]
      exact hnd2
    | succ k =>
      rw [List.eraseIdx_cons_succ]
      refine List.nodup_cons.mpr ⟨?_, ih k hnd2⟩
      intro hmem
      exact hna (List.mem_of_mem_eraseIdx hmem)


/-! ### One neighbor relaxation preserves the invariant -/

theorem neighborDirs_ne_zero : ∀ d ∈ neighborDirs, d ≠ ((0 : ℤ), (0 : ℤ)) := by
  decide

theorem relaxNeighbor_trichotomy (cfg : Config) (t cur : Cell) (st : AState) (d : Cell)
    (hd : d ∈ neighborDirs) :
    (¬ AllowedStep cfg cur (cur.1 + d.1, cur.2 + d.2) ∧
      relaxNeighbor cfg t cur st d = st) ∨
    (AllowedStep cfg cur (cur.1 + d.1, cur.2 + d.2) ∧
      ¬ (st.gScore cur + ((stepCost d : ℝ) : WithTop ℝ) <
        st.gScore (cur.1 + d.1, cur.2 + d.2)) ∧
      relaxNeighbor cfg t cur st d = st) ∨
    (AllowedStep cfg cur (cur.1 + d.1, cur.2 + d.2) ∧
      (st.gScore cur + ((stepCost d : ℝ) : WithTop ℝ) <
        st.gScore (cur.1 + d.1, cur.2 + d.2)) ∧
      relaxNeighbor cfg t cur st d =
      { openHeap := if (cur.1 + d.1, cur.2 + d.2) ∈ st.openHeap then st.openHeap
          else st.openHeap ++ [(cur.1 + d.1, cur.2 + d.2)]
        gScore := fun k => if k = (cur.1 + d.1, cur.2 + d.2) then
            st.gScore cur + ((stepCost d : ℝ) : WithTop ℝ) else st.gScore k
        fScore := fun k => if k = (cur.1 + d.1, cur.2 + d.2) then
            st.gScore cur + ((stepCost d : ℝ) : WithTop ℝ) +
              ((heuristic (cur.1 + d.1, cur.2 + d.2) t : ℝ) : WithTop ℝ)
          else st.fScore k
        cameFrom := fun k => if k = (cur.1 + d.1, cur.2 + d.2) then some cur
          else st.cameFrom k }) := by
  have hpair : ((cur.1 + d.1) - cur.1, (cur.2 + d.2) - cur.2) = d := by
    simp
  by_cases hb : isBlocked cfg (cur.1 + d.1, cur.2 + d.2) = true
  · refine Or.inl ⟨?_, relaxNeighbor_skip_blocked cfg t cur st d hb⟩
    intro ha
    rw [ha.2.1] at hb
    cases hb
  · have hfree : isBlocked cfg (cur.1 + d.1, cur.2 + d.2) = false :=
      Bool.eq_false_iff.mpr hb
    by_cases hcor : (d.1 ≠ 0 ∧ d.2 ≠ 0) ∧
        (isBlocked cfg (cur.1 + d.1, cur.2) = true ∨
         isBlocked cfg (cur.1, cur.2 + d.2) = true)
    · refine Or.inl ⟨?_, relaxNeighbor_skip_corner cfg t cur st d hfree hcor.1 hcor.2⟩
      intro ha
      have hdiag : (cur.1 + d.1, cur.2 + d.2).1 - cur.1 ≠ 0 ∧
          (cur.1 + d.1, cur.2 + d.2).2 - cur.2 ≠ 0 := by
        constructor
        · simpa using hcor.1.1
        · simpa using hcor.1.2
      obtain ⟨hf1, hf2⟩ := ha.2.2 hdiag
      rcases hcor.2 with hbl | hbl
      · rw [show ((cur.1 + d.1, cur.2 + d.2).1, cur.2) = (cur.1 + d.1, cur.2) from rfl]
          at hf1
        rw [hf1] at hbl
        cases hbl
      · rw [show (cur.1, (cur.1 + d.1, cur.2 + d.2).2) = (cur.1, cur.2 + d.2) from rfl]
          at hf2
        rw [hf2] at hbl
        cases hbl
    · by_cases himp : st.gScore cur + ((stepCost d : ℝ) : WithTop ℝ) <
          st.gScore (cur.1 + d.1, cur.2 + d.2)
      · refine Or.inr (Or.inr ⟨?_, himp,
          relaxNeighbor_update cfg t cur st d hfree hcor himp⟩)
        refine ⟨?_, hfree, ?_⟩
        · rw [show ((cur.1 + d.1, cur.2 + d.2).1 - cur.1,
            (cur.1 + d.1, cur.2 + d.2).2 - cur.2) = ((cur.1 + d.1) - cur.1,
            (cur.2 + d.2) - cur.2) from rfl, hpair]
          exact hd
        · intro hdiag
          have hd1 : d.1 ≠ 0 := by simpa using hdiag.1
          have hd2 : d.2 ≠ 0 := by simpa using hdiag.2
          constructor
          · by_contra hbl
            rw [Bool.not_eq_false] at hbl
            exact hcor ⟨⟨hd1, hd2⟩, Or.inl hbl⟩
          · by_contra hbl
            rw [Bool.not_eq_false] at hbl
            exact hcor ⟨⟨hd1, hd2⟩, Or.inr hbl⟩
      · refine Or.inr (Or.inl ⟨?_, himp,
          relaxNeighbor_skip_noimp cfg t cur st d hfree hcor himp⟩)
        refine ⟨?_, hfree, ?_⟩
        · rw [show ((cur.1 + d.1, cur.2 + d.2).1 - cur.1,
            (cur.1 + d.1, cur.2 + d.2).2 - cur.2) = ((cur.1 + d.1) - cur.1,
            (cur.2 + d.2) - cur.2) from rfl, hpair]
          exact hd
        · intro hdiag
          have hd1 : d.1 ≠ 0 := by simpa using hdiag.1
          have hd2 : d.2 ≠ 0 := by simpa using hdiag.2
          constructor
          · by_contra hbl
            rw [Bool.not_eq_false] at hbl
            exact hcor ⟨⟨hd1, hd2⟩, Or.inl hbl⟩
          · by_contra hbl
            rw [Bool.not_eq_false] at hbl
            exact hcor ⟨⟨hd1, hd2⟩, Or.inr hbl⟩


theorem relax_preserves (cfg : Config) (s t cur : Cell) (st : AState) (d : Cell)
    (hd : d ∈ neighborDirs)
    (hc : Core cfg s t st) (hfr : ∀ v, v ≠ cur → FRat cfg st v)
    (hcur : Settled st cur) :
    Core cfg s t (relaxNeighbor cfg t cur st d) ∧
    (∀ v, v ≠ cur → FRat cfg (relaxNeighbor cfg t cur st d) v) ∧
    (∀ v, Settled (relaxNeighbor cfg t cur st d) v ↔ Settled st v) ∧
    (∀ v, (relaxNeighbor cfg t cur st d).gScore v ≤ st.gScore v) ∧
    (∀ v, Settled st v → (relaxNeighbor cfg t cur st d).gScore v = st.gScore v) ∧
    (∀ v ∈ st.openHeap, v ∈ (relaxNeighbor cfg t cur st d).openHeap) ∧
    (AllowedStep cfg cur (cur.1 + d.1, cur.2 + d.2) →
      (Settled (relaxNeighbor cfg t cur st d) (cur.1 + d.1, cur.2 + d.2) ∨
        (cur.1 + d.1, cur.2 + d.2) ∈ (relaxNeighbor cfg t cur st d).openHeap) ∧
      (relaxNeighbor cfg t cur st d).gScore (cur.1 + d.1, cur.2 + d.2) ≤
        st.gScore cur + ((stepCost d : ℝ) : WithTop ℝ)) := by
  have hpair : ((cur.1 + d.1) - cur.1, (cur.2 + d.2) - cur.2) = d := by
    simp
  have harg : (((cur.1 + d.1, cur.2 + d.2) : Cell).1 - cur.1,
      ((cur.1 + d.1, cur.2 + d.2) : Cell).2 - cur.2) = d := hpair
  have htent_top : st.gScore cur + ((stepCost d : ℝ) : WithTop ℝ) < ⊤ := by
    obtain ⟨gc, hgc⟩ := WithTop.ne_top_iff_exists.mp hcur.1.ne
    rw [← hgc, wt_coe_sum]
    exact WithTop.coe_lt_top _
  rcases relaxNeighbor_trichotomy cfg t cur st d hd with ⟨hna, hid⟩ |
    ⟨hstep, himp, hid⟩ | ⟨hstep, himp, hupd⟩
  · rw [hid]
    refine ⟨hc, hfr, fun v => Iff.rfl, fun v => le_refl _, fun v _ => rfl,
      fun v hv => hv, ?_⟩
    intro hstep
    exact absurd hstep hna
  · rw [hid]
    refine ⟨hc, hfr, fun v => Iff.rfl, fun v => le_refl _, fun v _ => rfl,
      fun v hv => hv, ?_⟩
    intro _
    have hgn : st.gScore (cur.1 + d.1, cur.2 + d.2) ≤
        st.gScore cur + ((stepCost d : ℝ) : WithTop ℝ) := not_lt.mp himp
    refine ⟨?_, hgn⟩
    by_cases hmem : (cur.1 + d.1, cur.2 + d.2) ∈ st.openHeap
    · exact Or.inr hmem
    · exact Or.inl ⟨lt_of_le_of_lt hgn htent_top, hmem⟩
  · have hnc : ((cur.1 + d.1, cur.2 + d.2) : Cell) ≠ cur := by
      intro h
      have h1 : cur.1 + d.1 = cur.1 := congrArg Prod.fst h
      have h2 : cur.2 + d.2 = cur.2 := congrArg Prod.snd h
      exact neighborDirs_ne_zero d hd (Prod.ext_iff.mpr ⟨by omega, by omega⟩)
    have hns : ((cur.1 + d.1, cur.2 + d.2) : Cell) ≠ s := by
      intro h
      rw [h, hc.gs0] at himp
      have hge : ((1 : ℝ) : WithTop ℝ) ≤
          st.gScore cur + ((stepCost d : ℝ) : WithTop ℝ) := by
        have h0 : ((1 : ℝ) : WithTop ℝ) = ((0 : ℝ) : WithTop ℝ) + ((1 : ℝ) : WithTop ℝ) := by
          norm_num
        rw [h0]
        exact add_le_add (core_gNonneg hc cur) (by exact_mod_cast one_le_stepCost d)
      have hlt : ((1 : ℝ) : WithTop ℝ) < ((0 : ℝ) : WithTop ℝ) := lt_of_le_of_lt hge himp
      have : (1 : ℝ) < 0 := by exact_mod_cast hlt
      linarith
    have hnsn : ¬ Settled st (cur.1 + d.1, cur.2 + d.2) := by
      intro hsn
      obtain ⟨r, hr, hcost⟩ := hc.gRoute cur hcur.1
      have hext : ValidRoute cfg s (cur.1 + d.1, cur.2 + d.2)
          (r ++ [(cur.1 + d.1, cur.2 + d.2)]) := validRoute_extend hr hstep
      have hopt := hc.settledOpt _ hsn _ hext
      rw [routeCost_concat r cur _ hr.2.1, harg, ← wt_coe_sum] at hopt
      have hle : ((routeCost r : ℝ) : WithTop ℝ) + ((stepCost d : ℝ) : WithTop ℝ) ≤
          st.gScore cur + ((stepCost d : ℝ) : WithTop ℝ) := add_le_add_right hcost _
      exact absurd (lt_of_le_of_lt (le_trans hopt hle) himp) (lt_irrefl _)
    have hg : ∀ k, (relaxNeighbor cfg t cur st d).gScore k =
        if k = (cur.1 + d.1, cur.2 + d.2) then
          st.gScore cur + ((stepCost d : ℝ) : WithTop ℝ) else st.gScore k := by
      intro k
      rw [hupd]
    have hf : ∀ k, (relaxNeighbor cfg t cur st d).fScore k =
        if k = (cur.1 + d.1, cur.2 + d.2) then
          st.gScore cur + ((stepCost d : ℝ) : WithTop ℝ) +
            ((heuristic (cur.1 + d.1, cur.2 + d.2) t : ℝ) : WithTop ℝ)
        else st.fScore k := by
      intro k
      rw [hupd]
    have hcf : ∀ k, (relaxNeighbor cfg t cur st d).cameFrom k =
        if k = (cur.1 + d.1, cur.2 + d.2) then some cur else st.cameFrom k := by
      intro k
      rw [hupd]
    have hoh : (relaxNeighbor cfg t cur st d).openHeap =
        if (cur.1 + d.1, cur.2 + d.2) ∈ st.openHeap then st.openHeap
        else st.openHeap ++ [(cur.1 + d.1, cur.2 + d.2)] := by
      rw [hupd]
    have hmem : ∀ v, v ∈ (relaxNeighbor cfg t cur st d).openHeap ↔
        v ∈ st.openHeap ∨ v = (cur.1 + d.1, cur.2 + d.2) := by
      intro v
      rw [hoh]
      by_cases hm : ((cur.1 + d.1, cur.2 + d.2) : Cell) ∈ st.openHeap
      · rw [if_pos hm]
        constructor
        · exact Or.inl
        · rintro (h | rfl)
          · exact h
          · exact hm
      · rw [if_neg hm]
        simp [List.mem_append]
    have hsettled : ∀ v, Settled (relaxNeighbor cfg t cur st d) v ↔ Settled st v := by
      intro v
      by_cases hveq : v = ((cur.1 + d.1, cur.2 + d.2) : Cell)
      · subst hveq
        constructor
        · intro hsv
          exact absurd ((hmem _).mpr (Or.inr rfl)) hsv.2
        · intro hsv
          exact absurd hsv hnsn
      · unfold Settled
        rw [hg v, if_neg hveq]
        constructor
        · rintro ⟨h1, h2⟩
          exact ⟨h1, fun hm => h2 ((hmem v).mpr (Or.inl hm))⟩
        · rintro ⟨h1, h2⟩
          refine ⟨h1, ?_⟩
          intro hmv
          rcases (hmem v).mp hmv with hm | heq
          · exact h2 hm
          · exact hveq heq
    have hmono : ∀ v, (relaxNeighbor cfg t cur st d).gScore v ≤ st.gScore v := by
      intro v
      rw [hg v]
      by_cases hveq : v = ((cur.1 + d.1, cur.2 + d.2) : Cell)
      · rw [if_pos hveq, hveq]
        exact le_of_lt himp
      · rw [if_neg hveq]
    have hseq : ∀ v, Settled st v → (relaxNeighbor cfg t cur st d).gScore v =
        st.gScore v := by
      intro v hv
      rw [hg v, if_neg]
      intro he
      rw [he] at hv
      exact hnsn hv
    have homono : ∀ v ∈ st.openHeap, v ∈ (relaxNeighbor cfg t cur st d).openHeap :=
      fun v hv => (hmem v).mpr (Or.inl hv)
    refine ⟨?_, ?_, hsettled, hmono, hseq, homono, ?_⟩
    · refine ⟨?_, ?_, ?_, ?_, ?_, ?_, ?_, ?_, ?_, ?_⟩
      · rw [hoh]
        by_cases hm : ((cur.1 + d.1, cur.2 + d.2) : Cell) ∈ st.openHeap
        · rw [if_pos hm]
          exact hc.nodup
        · rw [if_neg hm]
          refine hc.nodup.append (List.nodup_singleton _) ?_
          intro a ha hb
          rw [List.mem_singleton] at hb
          rw [hb] at ha
          exact hm ha
      · intro v hv
        rw [hg v]
        by_cases hveq : v = ((cur.1 + d.1, cur.2 + d.2) : Cell)
        · rw [if_pos hveq]
          exact htent_top
        · rw [if_neg hveq]
          rcases (hmem v).mp hv with hvo | heq
          · exact hc.openG v hvo
          · exact absurd heq hveq
      · intro v
        rw [hf v, hg v]
        by_cases hveq : v = ((cur.1 + d.1, cur.2 + d.2) : Cell)
        · rw [if_pos hveq, if_pos hveq, hveq]
        · rw [if_neg hveq, if_neg hveq]
          exact hc.fEq v
      · rw [hg s, if_neg (fun h => hns h.symm)]
        exact hc.gs0
      · intro v hv
        rw [hg v] at hv
        by_cases hveq : v = ((cur.1 + d.1, cur.2 + d.2) : Cell)
        · rw [hveq]
          exact hstep.2.1
        · rw [if_neg hveq] at hv
          exact hc.gUnb v hv
      · intro v hv
        by_cases hveq : v = ((cur.1 + d.1, cur.2 + d.2) : Cell)
        · subst hveq
          obtain ⟨r, hr, hcost⟩ := hc.gRoute cur hcur.1
          refine ⟨r ++ [(cur.1 + d.1, cur.2 + d.2)], validRoute_extend hr hstep, ?_⟩
          rw [routeCost_concat r cur _ hr.2.1, harg, ← wt_coe_sum, hg _, if_pos rfl]
          exact add_le_add_right hcost _
        · rw [hg v, if_neg hveq] at hv
          obtain ⟨r, hr, hcost⟩ := hc.gRoute v hv
          refine ⟨r, hr, ?_⟩
          rw [hg v, if_neg hveq]
          exact hcost
      · intro v hsv r hr
        have hsv0 : Settled st v := (hsettled v).mp hsv
        have hvne : v ≠ ((cur.1 + d.1, cur.2 + d.2) : Cell) := by
          intro he
          rw [he] at hsv0
          exact hnsn hsv0
        rw [hg v, if_neg hvne]
        exact hc.settledOpt v hsv0 r hr
      · intro hst
        exact hc.tFree ((hsettled t).mp hst)
      · intro v w hvw
        rw [hcf v] at hvw
        by_cases hveq : v = ((cur.1 + d.1, cur.2 + d.2) : Cell)
        · rw [if_pos hveq] at hvw
          have hwc : w = cur := (Option.some.inj hvw).symm
          subst hwc
          refine ⟨(hsettled w).mpr hcur, ?_, ?_⟩
          · rw [hveq]
            exact hstep
          · rw [hg v, if_pos hveq, hg w, if_neg (fun h => hnc h.symm)]
            rw [hveq, harg]
        · rw [if_neg hveq] at hvw
          obtain ⟨hw, hstep2, heq⟩ := hc.parent v w hvw
          have hwne : w ≠ ((cur.1 + d.1, cur.2 + d.2) : Cell) := by
            intro he
            rw [he] at hw
            exact hnsn hw
          refine ⟨(hsettled w).mpr hw, hstep2, ?_⟩
          rw [hg v, if_neg hveq, hg w, if_neg hwne]
          exact heq
      · intro v hv
        rw [hg v] at hv
        by_cases hveq : v = ((cur.1 + d.1, cur.2 + d.2) : Cell)
        · right
          rw [hcf v, if_pos hveq]
          exact fun h => Option.noConfusion h
        · rw [if_neg hveq] at hv
          rcases hc.gOrigin v hv with h | h
          · exact Or.inl h
          · right
            rw [hcf v, if_neg hveq]
            exact h
    · intro v hvne hsv w hw
      have hsv0 : Settled st v := (hsettled v).mp hsv
      obtain ⟨hor, hg2⟩ := hfr v hvne hsv0 w hw
      constructor
      · rcases hor with hsw | hwo
        · exact Or.inl ((hsettled w).mpr hsw)
        · exact Or.inr ((hmem w).mpr (Or.inl hwo))
      · calc (relaxNeighbor cfg t cur st d).gScore w ≤ st.gScore w := hmono w
          _ ≤ st.gScore v + ((stepCost (w.1 - v.1, w.2 - v.2) : ℝ) : WithTop ℝ) := hg2
          _ = (relaxNeighbor cfg t cur st d).gScore v +
              ((stepCost (w.1 - v.1, w.2 - v.2) : ℝ) : WithTop ℝ) := by
            rw [hseq v hsv0]
    · intro _
      refine ⟨Or.inr ((hmem _).mpr (Or.inr rfl)), ?_⟩
      rw [hg _, if_pos rfl]


theorem relaxFold_preserves (cfg : Config) (s t cur : Cell) :
    ∀ (l : List Cell), (∀ d ∈ l, d ∈ neighborDirs) →
    ∀ st : AState, Core cfg s t st → (∀ v, v ≠ cur → FRat cfg st v) →
      Settled st cur →
    Core cfg s t (l.foldl (relaxNeighbor cfg t cur) st) ∧
    (∀ v, v ≠ cur → FRat cfg (l.foldl (relaxNeighbor cfg t cur) st) v) ∧
    (∀ v, Settled (l.foldl (relaxNeighbor cfg t cur) st) v ↔ Settled st v) ∧
    (∀ v, (l.foldl (relaxNeighbor cfg t cur) st).gScore v ≤ st.gScore v) ∧
    (∀ v, Settled st v →
      (l.foldl (relaxNeighbor cfg t cur) st).gScore v = st.gScore v) ∧
    (∀ v ∈ st.openHeap, v ∈ (l.foldl (relaxNeighbor cfg t cur) st).openHeap) ∧
    (∀ d ∈ l, AllowedStep cfg cur (cur.1 + d.1, cur.2 + d.2) →
      (Settled (l.foldl (relaxNeighbor cfg t cur) st) (cur.1 + d.1, cur.2 + d.2) ∨
        (cur.1 + d.1, cur.2 + d.2) ∈ (l.foldl (relaxNeighbor cfg t cur) st).openHeap) ∧
      (l.foldl (relaxNeighbor cfg t cur) st).gScore (cur.1 + d.1, cur.2 + d.2) ≤
        (l.foldl (relaxNeighbor cfg t cur) st).gScore cur +
          ((stepCost d : ℝ) : WithTop ℝ)) := by
  intro l
  induction l with
  | nil =>
    intro _ st hc hfr _
    refine ⟨hc, hfr, fun v => Iff.rfl, fun v => le_refl _, fun v _ => rfl,
      fun v hv => hv, ?_⟩
    intro d hd
    simp at hd
  | cons a rest ih =>
    intro hsub st hc hfr hcur
    have hda : a ∈ neighborDirs := hsub a (List.mem_cons_self _ _)
    obtain ⟨hc1, hfr1, hsettled1, hmono1, hseq1, homono1, hpost1⟩ :=
      relax_preserves cfg s t cur st a hda hc hfr hcur
    have hcur1 : Settled (relaxNeighbor cfg t cur st a) cur := (hsettled1 cur).mpr hcur
    obtain ⟨hcF, hfrF, hsettledF, hmonoF, hseqF, homonoF, hpostF⟩ :=
      ih (fun d hd => hsub d (List.mem_cons_of_mem _ hd))
        (relaxNeighbor cfg t cur st a) hc1 hfr1 hcur1
    rw [List.foldl_cons]
    refine ⟨hcF, hfrF, ?_, ?_, ?_, ?_, ?_⟩
    · intro v
      exact (hsettledF v).trans (hsettled1 v)
    · intro v
      exact le_trans (hmonoF v) (hmono1 v)
    · intro v hv
      rw [hseqF v ((hsettled1 v).mpr hv)]
      exact hseq1 v hv
    · intro v hv
      exact homonoF v (homono1 v hv)
    · intro d hd hstep
      rcases List.mem_cons.mp hd with rfl | hd2
      · obtain ⟨hor1, hg1⟩ := hpost1 hstep
        constructor
        · rcases hor1 with hsw | hwo
          · exact Or.inl ((hsettledF _).mpr hsw)
          · exact Or.inr (homonoF _ hwo)
        · have hcurg : (rest.foldl (relaxNeighbor cfg t cur)
              (relaxNeighbor cfg t cur st d)).gScore cur =
              (relaxNeighbor cfg t cur st d).gScore cur := hseqF cur hcur1
          calc (rest.foldl (relaxNeighbor cfg t cur)
                (relaxNeighbor cfg t cur st d)).gScore (cur.1 + d.1, cur.2 + d.2) ≤
              (relaxNeighbor cfg t cur st d).gScore (cur.1 + d.1, cur.2 + d.2) :=
                hmonoF _
            _ ≤ st.gScore cur + ((stepCost d : ℝ) : WithTop ℝ) := hg1
            _ = (relaxNeighbor cfg t cur st d).gScore cur +
                ((stepCost d : ℝ) : WithTop ℝ) := by
                  rw [hseq1 cur hcur]
            _ = (rest.foldl (relaxNeighbor cfg t cur)
                (relaxNeighbor cfg t cur st d)).gScore cur +
                ((stepCost d : ℝ) : WithTop ℝ) := by
                  rw [hcurg]
      · exact hpostF d hd2 hstep

theorem relaxAll_inv (cfg : Config) (s t cur : Cell) (st : AState)
    (hc : Core cfg s t st) (hfr : ∀ v, v ≠ cur → FRat cfg st v)
    (hcur : Settled st cur) :
    Inv cfg s t (relaxAll cfg t cur st) ∧
    (∀ v, Settled (relaxAll cfg t cur st) v ↔ Settled st v) := by
  obtain ⟨hcF, hfrF, hsettledF, hmonoF, hseqF, homonoF, hpostF⟩ :=
    relaxFold_preserves cfg s t cur neighborDirs (fun d hd => hd) st hc hfr hcur
  refine ⟨⟨hcF, ?_⟩, hsettledF⟩
  intro v
  by_cases hv : v = cur
  · subst hv
    intro _ w hw
    have hdmem : ((w.1 - v.1, w.2 - v.2) : Cell) ∈ neighborDirs := hw.1
    have hwrec : (v.1 + (w.1 - v.1), v.2 + (w.2 - v.2)) = w := by
      have h1 : v.1 + (w.1 - v.1) = w.1 := by ring
      have h2 : v.2 + (w.2 - v.2) = w.2 := by ring
      rw [h1, h2]
    have hstep2 : AllowedStep cfg v
        (v.1 + (w.1 - v.1), v.2 + (w.2 - v.2)) := by
      rw [hwrec]
      exact hw
    obtain ⟨hor, hg⟩ := hpostF _ hdmem hstep2
    rw [hwrec] at hor hg
    exact ⟨hor, hg⟩
  · exact hfrF v hv


/-- On any valid route to an unsettled cell the frontier holds an open cell
whose fScore is at most the route's cost plus the endpoint's heuristic. -/
theorem frontier_bound (cfg : Config) (s t : Cell) (st : AState)
    (hc : Core cfg s t st) (hfr : ∀ v, FRat cfg st v) :
    ∀ (r : List Cell) (v : Cell), ValidRoute cfg s v r → ¬ Settled st v →
    ∃ w ∈ st.openHeap,
      st.fScore w ≤ ((routeCost r + heuristic v t : ℝ) : WithTop ℝ) := by
  intro r
  induction r using List.reverseRecOn with
  | nil =>
    intro v hr _
    exact absurd (validRoute_ne_nil hr) (fun h => h rfl)
  | append_singleton l a ih =>
    intro v hr hnv
    have hav : a = v := by
      have := hr.2.1
      rw [List.getLast?_concat] at this
      exact Option.some.inj this
    subst hav
    by_cases hlne : l = []
    · subst hlne
      have hvs : a = s := by
        have := hr.1
        simp only [List.nil_append, List.head?_cons, Option.some.injEq] at this
        exact this
      subst hvs
      have hfin : st.gScore a < ⊤ := by
        rw [hc.gs0]
        exact WithTop.coe_lt_top _
      have hao : a ∈ st.openHeap := by
        by_contra hno
        exact hnv ⟨hfin, hno⟩
      refine ⟨a, hao, ?_⟩
      rw [hc.fEq a, hc.gs0, wt_coe_sum]
      have hcost : routeCost ([] ++ [a]) = 0 := by
        simp [routeCost]
      rw [hcost]
    · obtain ⟨u, hu, hstep, hru⟩ := validRoute_drop_last hlne hr
      by_cases hsu : Settled st u
      · obtain ⟨hor, hgv⟩ := hfr u hsu a hstep
        have hvo : a ∈ st.openHeap := by
          rcases hor with hsa | hao
          · exact absurd hsa hnv
          · exact hao
        refine ⟨a, hvo, ?_⟩
        have hgu := hc.settledOpt u hsu l hru
        rw [hc.fEq a]
        have hchain : st.gScore a + ((heuristic a t : ℝ) : WithTop ℝ) ≤
            (((routeCost l : ℝ) : WithTop ℝ) +
              ((stepCost (a.1 - u.1, a.2 - u.2) : ℝ) : WithTop ℝ)) +
              ((heuristic a t : ℝ) : WithTop ℝ) := by
          refine add_le_add_right (le_trans hgv ?_) _
          exact add_le_add_right hgu _
        refine le_trans hchain ?_
        rw [wt_coe_sum, wt_coe_sum, routeCost_concat l u a hu]
      · obtain ⟨w, hwo, hfw⟩ := ih u hru hsu
        refine ⟨w, hwo, ?_⟩
        refine le_trans hfw ?_
        rw [routeCost_concat l u a hu]
        have hcons := heuristic_consistent u a t hstep.1
        rw [WithTop.coe_le_coe]
        linarith

/-- The popped open cell of minimal fScore carries an optimal gScore. -/
theorem pop_optimal (cfg : Config) (s t : Cell) (st : AState)
    (hinv : Inv cfg s t st) (j : ℕ) (u : Cell)
    (hsel : selectBest st = some (j, u)) :
    ∀ r, ValidRoute cfg s u r →
      st.gScore u ≤ ((routeCost r : ℝ) : WithTop ℝ) := by
  obtain ⟨hc, hfr⟩ := hinv
  obtain ⟨hget, hmin⟩ := selectBest_spec hsel
  have humem : u ∈ st.openHeap := List.get?_mem hget
  have hnsu : ¬ Settled st u := fun hs => hs.2 humem
  intro r hr
  obtain ⟨w, hwo, hfw⟩ := frontier_bound cfg s t st hc hfr r u hr hnsu
  have h1 : st.fScore u ≤ ((routeCost r + heuristic u t : ℝ) : WithTop ℝ) :=
    le_trans (hmin w hwo) hfw
  rw [hc.fEq u] at h1
  have hgu : st.gScore u < ⊤ := hc.openG u humem
  obtain ⟨gu, hgu2⟩ := WithTop.ne_top_iff_exists.mp hgu.ne
  rw [← hgu2, wt_coe_sum] at h1
  have h2 : gu + heuristic u t ≤ routeCost r + heuristic u t := by
    exact_mod_cast h1
  have h3 : gu ≤ routeCost r := by linarith
  rw [← hgu2]
  exact_mod_cast h3


theorem pop_relax_inv (cfg : Config) (s t : Cell) (st : AState)
    (hinv : Inv cfg s t st) (j : ℕ) (u : Cell)
    (hsel : selectBest st = some (j, u)) (hut : u ≠ t) :
    Inv cfg s t (relaxAll cfg t u { st with openHeap := st.openHeap.eraseIdx j }) ∧
    (∀ v, Settled (relaxAll cfg t u
      { st with openHeap := st.openHeap.eraseIdx j }) v ↔ (Settled st v ∨ v = u)) := by
  obtain ⟨hc, hfr⟩ := hinv
  obtain ⟨hget, hmin⟩ := selectBest_spec hsel
  have humem : u ∈ st.openHeap := List.get?_mem hget
  have hnsu : ¬ Settled st u := fun hs => hs.2 humem
  have hfin : st.gScore u < ⊤ := hc.openG u humem
  have hsM : ∀ v, Settled { st with openHeap := st.openHeap.eraseIdx j } v ↔
      (Settled st v ∨ v = u) := by
    intro v
    by_cases hv : v = u
    · subst hv
      unfold Settled
      constructor
      · intro _
        exact Or.inr rfl
      · intro _
        exact ⟨hfin, not_mem_eraseIdx_self st.openHeap j v hc.nodup hget⟩
    · unfold Settled
      constructor
      · rintro ⟨h1, h2⟩
        refine Or.inl ⟨h1, ?_⟩
        intro hmem
        exact h2 (mem_eraseIdx_of_ne st.openHeap j u v hget hmem hv)
      · rintro (⟨h1, h2⟩ | heq)
        · exact ⟨h1, fun hm => h2 (List.mem_of_mem_eraseIdx hm)⟩
        · exact absurd heq hv
  have hcM : Core cfg s t { st with openHeap := st.openHeap.eraseIdx j } := by
    refine ⟨?_, ?_, hc.fEq, hc.gs0, hc.gUnb, hc.gRoute, ?_, ?_, ?_, hc.gOrigin⟩
    · exact nodup_eraseIdx st.openHeap j hc.nodup
    · intro v hv
      exact hc.openG v (List.mem_of_mem_eraseIdx hv)
    · intro v hsv r hr
      rcases (hsM v).mp hsv with hsv0 | heq
      · exact hc.settledOpt v hsv0 r hr
      · subst heq
        exact pop_optimal cfg s t st ⟨hc, hfr⟩ j v hsel r hr
    · intro hst
      rcases (hsM t).mp hst with h | h
      · exact hc.tFree h
      · exact hut h.symm
    · intro v w hvw
      obtain ⟨hw, hstep, heq⟩ := hc.parent v w hvw
      exact ⟨(hsM w).mpr (Or.inl hw), hstep, heq⟩
  have hfrM : ∀ v, v ≠ u →
      FRat cfg { st with openHeap := st.openHeap.eraseIdx j } v := by
    intro v hvne hsv w hw
    have hsv0 : Settled st v := ((hsM v).mp hsv).resolve_right hvne
    obtain ⟨hor, hg⟩ := hfr v hsv0 w hw
    refine ⟨?_, hg⟩
    rcases hor with hsw | hwo
    · exact Or.inl ((hsM w).mpr (Or.inl hsw))
    · by_cases hwu : w = u
      · subst hwu
        exact Or.inl ((hsM w).mpr (Or.inr rfl))
      · exact Or.inr (mem_eraseIdx_of_ne st.openHeap j u w hget hwo hwu)
  have hcurM : Settled { st with openHeap := st.openHeap.eraseIdx j } u :=
    (hsM u).mpr (Or.inr rfl)
  obtain ⟨hinvN, hsN⟩ := relaxAll_inv cfg s t u _ hcM hfrM hcurM
  exact ⟨hinvN, fun v => (hsN v).trans (hsM v)⟩

/-- How many in-bounds cells the search has settled. -/
noncomputable def settledCount (cfg : Config) (st : AState) : ℕ :=
  (@Finset.filter Cell (fun v => Settled st v)
    (fun v => Classical.propDecidable _) (cells cfg)).card

theorem settledCount_le (cfg : Config) (st : AState) :
    settledCount cfg st ≤ (cells cfg).card := by
  unfold settledCount
  exact @Finset.card_filter_le Cell (cells cfg) (fun v => Settled st v)
    (fun v => Classical.propDecidable _)

theorem settledCount_succ (cfg : Config) (st stN : AState) (u : Cell)
    (hiff : ∀ v, Settled stN v ↔ (Settled st v ∨ v = u)) (hu : u ∈ cells cfg)
    (hnsu : ¬ Settled st u) :
    settledCount cfg stN = settledCount cfg st + 1 := by
  letI : DecidablePred fun v : Cell => Settled st v :=
    fun v => Classical.propDecidable _
  letI : DecidablePred fun v : Cell => Settled stN v :=
    fun v => Classical.propDecidable _
  unfold settledCount
  have hset : (@Finset.filter Cell (fun v => Settled stN v)
      (fun v => Classical.propDecidable _) (cells cfg)) =
      insert u (@Finset.filter Cell (fun v => Settled st v)
        (fun v => Classical.propDecidable _) (cells cfg)) := by
    ext x
    simp only [Finset.mem_filter, Finset.mem_insert]
    constructor
    · rintro ⟨hx, hsx⟩
      rcases (hiff x).mp hsx with h | h
      · exact Or.inr ⟨hx, h⟩
      · exact Or.inl h
    · rintro (rfl | ⟨hx, hsx⟩)
      · exact ⟨hu, (hiff x).mpr (Or.inr rfl)⟩
      · exact ⟨hx, (hiff x).mpr (Or.inl hsx)⟩
  rw [hset, Finset.card_insert_of_not_mem]
  intro hmem
  exact hnsu (Finset.mem_filter.mp hmem).2

theorem initState_inv (cfg : Config) (s t : Cell) (hs : isBlocked cfg s = false)
    (hst : s ≠ t) : Inv cfg s t (initState s t) := by
  have hgtop : ∀ v : Cell, v ≠ s → (initState s t).gScore v = ⊤ :=
    fun v hne => if_neg hne
  have hfinite : ∀ v : Cell, (initState s t).gScore v < ⊤ → v = s := by
    intro v hv
    by_contra hne
    rw [hgtop v hne] at hv
    exact lt_irrefl _ hv
  have hgs : (initState s t).gScore s = ((0 : ℝ) : WithTop ℝ) := if_pos rfl
  constructor
  · refine ⟨List.nodup_singleton s, ?_, ?_, hgs, ?_, ?_, ?_, ?_, ?_, ?_⟩
    · intro v hv
      have hv2 : v ∈ [s] := hv
      rw [List.mem_singleton] at hv2
      subst hv2
      rw [hgs]
      exact WithTop.coe_lt_top _
    · intro v
      show (if v = s then ((heuristic s t : ℝ) : WithTop ℝ) else ⊤) =
        (if v = s then ((0 : ℝ) : WithTop ℝ) else ⊤) +
          ((heuristic v t : ℝ) : WithTop ℝ)
      by_cases hv : v = s
      · rw [if_pos hv, if_pos hv, wt_coe_sum, hv]
        norm_num
      · rw [if_neg hv, if_neg hv, WithTop.top_add]
    · intro v hv
      rw [hfinite v hv]
      exact hs
    · intro v hv
      have hvs := hfinite v hv
      subst hvs
      refine ⟨[v], validRoute_single cfg v hs, ?_⟩
      rw [hgs]
      have h0 : routeCost [v] = 0 := by simp [routeCost]
      rw [h0]
    · intro v hsv
      exfalso
      have hvs := hfinite v hsv.1
      subst hvs
      exact hsv.2 (List.mem_singleton.mpr rfl)
    · intro hsv
      exact hst (hfinite t hsv.1).symm
    · intro v w hvw
      exact absurd hvw (by simp [initState])
    · intro v hv
      exact Or.inl (hfinite v hv)
  · intro v hsv
    exfalso
    have hvs := hfinite v hsv.1
    subst hvs
    exact hsv.2 (List.mem_singleton.mpr rfl)


theorem chain_spec (cfg : Config) (s t : Cell) (st : AState)
    (hinv : Inv cfg s t st) :
    ∀ (fuel : ℕ) (v : Cell) (gv : ℝ), st.gScore v = ((gv : ℝ) : WithTop ℝ) →
      ((cells cfg).filter fun x => st.gScore x < st.gScore v).card < fuel →
      ValidRoute cfg s v ((chainCells st.cameFrom fuel v).reverse) ∧
      routeCost ((chainCells st.cameFrom fuel v).reverse) = gv := by
  intro fuel
  induction fuel with
  | zero =>
    intro v gv _ hcard
    exact absurd hcard (Nat.not_lt_zero _)
  | succ n ih =>
    intro v gv hgv hcard
    have hvfin : st.gScore v < ⊤ := by
      rw [hgv]
      exact WithTop.coe_lt_top _
    rw [chainCells]
    cases hq : st.cameFrom v with
    | none =>
      have hvs : v = s := by
        rcases hinv.1.gOrigin v hvfin with h | h
        · exact h
        · exact absurd hq h
      subst hvs
      constructor
      · rw [List.reverse_singleton]
        exact validRoute_single cfg v (hinv.1.gUnb v hvfin)
      · rw [List.reverse_singleton]
        have h0 : ((0 : ℝ) : WithTop ℝ) = ((gv : ℝ) : WithTop ℝ) := by
          rw [← hinv.1.gs0, hgv]
        have h1 : (0 : ℝ) = gv := by exact_mod_cast h0
        simp [routeCost, ← h1]
    | some w =>
      obtain ⟨hw, hstep, heq⟩ := hinv.1.parent v w hq
      obtain ⟨gw, hgw⟩ := WithTop.ne_top_iff_exists.mp hw.1.ne
      have heq2 : gv = gw + stepCost (v.1 - w.1, v.2 - w.2) := by
        rw [hgv, ← hgw, wt_coe_sum] at heq
        exact_mod_cast heq
      have hlt : st.gScore w < st.gScore v := by
        rw [hgv, ← hgw, WithTop.coe_lt_coe]
        have hsc := one_le_stepCost (v.1 - w.1, v.2 - w.2)
        linarith [heq2]
      have hwcells : w ∈ cells cfg :=
        mem_cells_of_unblocked (hinv.1.gUnb w hw.1)
      have hsub : ((cells cfg).filter fun x => st.gScore x < st.gScore w) ⊂
          ((cells cfg).filter fun x => st.gScore x < st.gScore v) := by
        rw [Finset.ssubset_iff_of_subset]
        · refine ⟨w, ?_, ?_⟩
          · rw [Finset.mem_filter]
            exact ⟨hwcells, hlt⟩
          · rw [Finset.mem_filter]
            rintro ⟨-, hww⟩
            exact lt_irrefl _ hww
        · intro x hx
          rw [Finset.mem_filter] at hx ⊢
          exact ⟨hx.1, lt_trans hx.2 hlt⟩
      have hcard2 : ((cells cfg).filter fun x => st.gScore x < st.gScore w).card < n := by
        have := Finset.card_lt_card hsub
        omega
      obtain ⟨hroute, hcost⟩ := ih w gw hgw.symm hcard2
      constructor
      · rw [List.reverse_cons]
        exact validRoute_extend hroute hstep
      · rw [List.reverse_cons, routeCost_concat _ w v hroute.2.1, hcost]
        exact heq2.symm


theorem astarLoop_found_eq (cfg : Config) (target : Cell) (fuel : ℕ) (st : AState)
    (j : ℕ) (hoe : ¬ st.openHeap.isEmpty = true)
    (hsel : selectBest st = some (j, target)) :
    astarLoop cfg target (fuel + 1) st = .found st.cameFrom := by
  rw [astarLoop, if_neg hoe, hsel]
  simp

theorem astarLoop_pop_eq (cfg : Config) (target : Cell) (fuel : ℕ) (st : AState)
    (j : ℕ) (u : Cell) (hoe : ¬ st.openHeap.isEmpty = true)
    (hsel : selectBest st = some (j, u)) (hut : u ≠ target) :
    astarLoop cfg target (fuel + 1) st =
      astarLoop cfg target fuel (relaxAll cfg target u
        { st with openHeap := st.openHeap.eraseIdx j }) := by
  rw [astarLoop, if_neg hoe, hsel]
  simp only [if_neg hut]

theorem astarLoop_sound (cfg : Config) (s t : Cell) :
    ∀ (fuel : ℕ) (st : AState), Inv cfg s t st →
      (cells cfg).card < settledCount cfg st + fuel →
      (astarLoop cfg t fuel st ≠ .exhausted) ∧
      (astarLoop cfg t fuel st = .failed → ¬ ReachableCorner cfg s t) ∧
      (∀ cm, astarLoop cfg t fuel st = .found cm →
        ∃ stf : AState, Inv cfg s t stf ∧ stf.cameFrom = cm ∧ stf.gScore t < ⊤ ∧
          ∀ r, ValidRoute cfg s t r →
            stf.gScore t ≤ ((routeCost r : ℝ) : WithTop ℝ)) := by
  intro fuel
  induction fuel with
  | zero =>
    intro st _ hcard
    have := settledCount_le cfg st
    omega
  | succ n ih =>
    intro st hinv hcard
    have hftop : ∀ w ∈ st.openHeap, st.fScore w < ⊤ := by
      intro w hw
      rw [hinv.1.fEq w]
      exact WithTop.add_lt_top.mpr ⟨hinv.1.openG w hw, WithTop.coe_lt_top _⟩
    by_cases hoe : st.openHeap.isEmpty
    · have hnil : st.openHeap = [] := List.isEmpty_iff.mp hoe
      rw [astarLoop, if_pos hoe]
      refine ⟨fun h => LoopOutcome.noConfusion h, ?_, ?_⟩
      · intro _ hreach
        obtain ⟨r, hr⟩ := hreach
        obtain ⟨w, hwo, -⟩ :=
          frontier_bound cfg s t st hinv.1 hinv.2 r t hr hinv.1.tFree
        rw [hnil] at hwo
        exact absurd hwo (List.not_mem_nil w)
      · intro cm h
        exact LoopOutcome.noConfusion h
    · have hne : st.openHeap ≠ [] := fun h => by
        rw [h] at hoe
        exact hoe rfl
      obtain ⟨⟨j, u⟩, hsel⟩ := selectBest_isSome hne hftop
      by_cases hut : u = t
      · subst hut
        rw [astarLoop_found_eq cfg u n st j hoe hsel]
        refine ⟨fun h => LoopOutcome.noConfusion h,
          fun h => LoopOutcome.noConfusion h, ?_⟩
        intro cm hcm
        injection hcm with hcmeq
        obtain ⟨hget, -⟩ := selectBest_spec hsel
        refine ⟨st, hinv, hcmeq, hinv.1.openG u (List.get?_mem hget), ?_⟩
        exact pop_optimal cfg s u st hinv j u hsel
      · rw [astarLoop_pop_eq cfg t n st j u hoe hsel hut]
        obtain ⟨hinvN, hsN⟩ := pop_relax_inv cfg s t st hinv j u hsel hut
        obtain ⟨hget, -⟩ := selectBest_spec hsel
        have humem : u ∈ st.openHeap := List.get?_mem hget
        have hnsu : ¬ Settled st u := fun hs => hs.2 humem
        have hucell : u ∈ cells cfg :=
          mem_cells_of_unblocked (hinv.1.gUnb u (hinv.1.openG u humem))
        have hcount := settledCount_succ cfg st _ u hsN hucell hnsu
        exact ih _ hinvN (by omega)


theorem astar_main (cfg : Config) (s t : Cell) (hs : isBlocked cfg s = false)
    (hst : s ≠ t) :
    (astarLoop cfg t (searchFuel cfg) (initState s t) ≠ .exhausted) ∧
    (astarLoop cfg t (searchFuel cfg) (initState s t) = .failed ↔
      ¬ ReachableCorner cfg s t) ∧
    (∀ cm, astarLoop cfg t (searchFuel cfg) (initState s t) = .found cm →
      ValidRoute cfg s t ((chainCells cm (searchFuel cfg) t).reverse) ∧
      ∀ r, ValidRoute cfg s t r →
        routeCost ((chainCells cm (searchFuel cfg) t).reverse) ≤ routeCost r) := by
  have hinv := initState_inv cfg s t hs hst
  have hcard : (cells cfg).card <
      settledCount cfg (initState s t) + searchFuel cfg := by
    have h1 := card_cells_le cfg
    unfold searchFuel
    omega
  obtain ⟨hex, hfail, hfound⟩ :=
    astarLoop_sound cfg s t (searchFuel cfg) (initState s t) hinv hcard
  refine ⟨hex, ⟨hfail, ?_⟩, ?_⟩
  · intro hnr
    cases hout : astarLoop cfg t (searchFuel cfg) (initState s t) with
    | failed => rfl
    | exhausted => exact absurd hout hex
    | found cm =>
      obtain ⟨stf, hinvf, -, hgfin, -⟩ := hfound cm hout
      obtain ⟨r, hr, -⟩ := hinvf.1.gRoute t hgfin
      exact absurd ⟨r, hr⟩ hnr
  · intro cm hcm
    obtain ⟨stf, hinvf, hcmeq, hgfin, hopt⟩ := hfound cm hcm
    obtain ⟨gt, hgt⟩ := WithTop.ne_top_iff_exists.mp hgfin.ne
    have hcb : ((cells cfg).filter fun x => stf.gScore x < stf.gScore t).card <
        searchFuel cfg := by
      have h1 : ((cells cfg).filter fun x =>
          stf.gScore x < stf.gScore t).card ≤ (cells cfg).card :=
        Finset.card_filter_le _ _
      have h2 := card_cells_le cfg
      unfold searchFuel
      omega
    obtain ⟨hroute, hcost⟩ :=
      chain_spec cfg s t stf hinvf (searchFuel cfg) t gt hgt.symm hcb
    rw [hcmeq] at hroute hcost
    refine ⟨hroute, ?_⟩
    intro r hr
    have hle := hopt r hr
    rw [← hgt] at hle
    rw [hcost]
    exact_mod_cast hle


/-- The tile route behind a successful search is a corner-respecting route
from the start tile to the target tile of minimal cost. -/
theorem tileChain_spec (cfg : Config) (sx sy tx ty : ℚ) (r : List Cell)
    (h : tileChain cfg sx sy tx ty = some r) :
    ValidRoute cfg (tileOf sx sy) (tileOf tx ty) r ∧
    ∀ q, ValidRoute cfg (tileOf sx sy) (tileOf tx ty) q →
      routeCost r ≤ routeCost q := by
  unfold tileChain at h
  by_cases hbs : isBlocked cfg (tileOf sx sy) = true
  · simp [hbs] at h
  have hs : isBlocked cfg (tileOf sx sy) = false := Bool.eq_false_iff.mpr hbs
  by_cases hbt : isBlocked cfg (tileOf tx ty) = true
  · simp [hs, hbt] at h
  have ht : isBlocked cfg (tileOf tx ty) = false := Bool.eq_false_iff.mpr hbt
  by_cases hst : tileOf sx sy = tileOf tx ty
  · simp [hs, ht, hst] at h
  simp only [hs, ht, Bool.false_eq_true, if_false, if_neg hst] at h
  cases hout : astarLoop cfg (tileOf tx ty) (searchFuel cfg)
      (initState (tileOf sx sy) (tileOf tx ty)) with
  | failed =>
    rw [hout] at h
    simp at h
  | exhausted =>
    rw [hout] at h
    simp at h
  | found cm =>
    rw [hout] at h
    simp only [Option.some.injEq] at h
    subst h
    obtain ⟨-, -, hfound⟩ := astar_main cfg (tileOf sx sy) (tileOf tx ty) hs hst
    exact hfound cm hout

/-- C2, amended: the tile route the search finds (the cameFrom chain behind
every non-null findPath result, before reconstruction and smoothing) is a
corner-rule-respecting 8-connected route between the two tiles of minimal
cost (1 per orthogonal step, sqrt 2 per diagonal step) among all such
corner-respecting routes - not among all plain 8-connected routes. -/
theorem C2_route_cost_minimal :
    ∀ (cfg : Config) (sx sy tx ty : ℚ) (r : List Cell),
      tileChain cfg sx sy tx ty = some r →
      ValidRoute cfg (tileOf sx sy) (tileOf tx ty) r ∧
      ∀ q, ValidRoute cfg (tileOf sx sy) (tileOf tx ty) q →
        routeCost r ≤ routeCost q := by
  intro cfg sx sy tx ty r h
  exact tileChain_spec cfg sx sy tx ty r h

/-- Witness for C2 on a concrete grid: the found route around the blocked
corner tile is valid and of minimal cost. -/
theorem C2_route_cost_minimal_witness :
    ValidRoute cfgCut ((0 : ℤ), (0 : ℤ)) ((1 : ℤ), (1 : ℤ))
      [(0, 0), (0, 1), (1, 1)] ∧
    ∀ q, ValidRoute cfgCut ((0 : ℤ), (0 : ℤ)) ((1 : ℤ), (1 : ℤ)) q →
      routeCost [((0 : ℤ), (0 : ℤ)), (0, 1), (1, 1)] ≤ routeCost q := by
  have h := C2_route_cost_minimal cfgCut 20 30 50 46 [(0, 0), (0, 1), (1, 1)] cut_chain
  rw [cut_ts, cut_tt] at h
  exact h

/-- C3, amended: the tile route behind every non-null findPath result never
cuts a corner - every diagonal tile step has both flanking orthogonal tiles
unblocked.  (The smoothed world path findPath actually returns does not obey
this, as the counterexample shows.) -/
theorem C3_tile_route_no_corner_cut :
    ∀ (cfg : Config) (sx sy tx ty : ℚ) (r : List Cell),
      tileChain cfg sx sy tx ty = some r →
      List.Chain' (fun a b => (a.1 ≠ b.1 ∧ a.2 ≠ b.2) →
        isBlocked cfg (b.1, a.2) = false ∧ isBlocked cfg (a.1, b.2) = false) r := by
  intro cfg sx sy tx ty r h
  have hvr := (tileChain_spec cfg sx sy tx ty r h).1
  refine List.Chain'.imp ?_ hvr.2.2.2
  intro a b hab hdiag
  exact hab.2.2 ⟨sub_ne_zero.mpr (Ne.symm hdiag.1), sub_ne_zero.mpr (Ne.symm hdiag.2)⟩

/-- Witness for C3 on a concrete grid: the corridor route has no
corner-cutting step. -/
theorem C3_tile_route_no_corner_cut_witness :
    List.Chain' (fun a b => (a.1 ≠ b.1 ∧ a.2 ≠ b.2) →
      isBlocked cfgCorr (b.1, a.2) = false ∧ isBlocked cfgCorr (a.1, b.2) = false)
      [((0 : ℤ), (0 : ℤ)), (1, 0), (2, 0)] :=
  C3_tile_route_no_corner_cut cfgCorr 16 16 80 16 [(0, 0), (1, 0), (2, 0)] corr_chain


/-! ### Endpoints of the smoothed path -/

theorem smoothLoop_head (obstacles : List Obstacle) (rawPath : List Point) :
    ∀ (fuel ci : ℕ) (sm : List Point), rawPath.length - ci ≤ fuel → sm ≠ [] →
      (smoothLoop obstacles rawPath ci sm).head? = sm.head? := by
  intro fuel
  induction fuel with
  | zero =>
    intro ci sm hf hsm
    rw [smoothLoop, dif_neg (by omega)]
  | succ n ih =>
    intro ci sm hf hsm
    by_cases hci : ci < rawPath.length - 1
    · rw [smoothLoop, dif_pos hci]
      simp only []
      set sp := sm.getLastD ((0 : ℚ), (0 : ℚ)) with hsp
      set k0 := findSkipIndex obstacles sp rawPath (ci + 1) with hk0
      set k1 := cappedIndex rawPath.length k0 with hk1
      have hlt : k1 < rawPath.length := by
        rw [hk1]
        exact cappedIndex_lt _ _ (by omega)
      by_cases h2 : ci < k1
      · rw [dif_pos h2]
        rw [ih k1 (sm ++ [rawPath.getD k1 ((0 : ℚ), (0 : ℚ))]) (by omega) (by simp)]
        cases sm with
        | nil => exact absurd rfl hsm
        | cons a l => rfl
      · rw [dif_neg h2]
        by_cases h3 : ci + 1 < rawPath.length
        · rw [dif_pos h3]
          rw [ih (ci + 1) (sm ++ [rawPath.getD (ci + 1) ((0 : ℚ), (0 : ℚ))])
            (by omega) (by simp)]
          cases sm with
          | nil => exact absurd rfl hsm
          | cons a l => rfl
        · rw [dif_neg h3]
          exact ih (ci + 1) sm (by omega) hsm
    · rw [smoothLoop, dif_neg hci]

theorem smoothLoop_last (obstacles : List Obstacle) (rawPath : List Point) :
    ∀ (fuel ci : ℕ) (sm : List Point), rawPath.length - ci ≤ fuel →
      ci < rawPath.length - 1 →
      (smoothLoop obstacles rawPath ci sm).getLast? =
        some (rawPath.getD (rawPath.length - 1) ((0 : ℚ), (0 : ℚ))) := by
  intro fuel
  induction fuel with
  | zero =>
    intro ci sm hf hci
    omega
  | succ n ih =>
    intro ci sm hf hci
    rw [smoothLoop, dif_pos hci]
    simp only []
    set sp := sm.getLastD ((0 : ℚ), (0 : ℚ)) with hsp
    set k0 := findSkipIndex obstacles sp rawPath (ci + 1) with hk0
    set k1 := cappedIndex rawPath.length k0 with hk1
    have hlt : k1 < rawPath.length := by
      rw [hk1]
      exact cappedIndex_lt _ _ (by omega)
    by_cases h2 : ci < k1
    · rw [dif_pos h2]
      by_cases hend : k1 < rawPath.length - 1
      · exact ih k1 _ (by omega) hend
      · have hn1 : k1 = rawPath.length - 1 := by omega
        rw [smoothLoop, dif_neg (by omega)]
        rw [List.getLast?_concat, hn1]
    · rw [dif_neg h2]
      have h3 : ci + 1 < rawPath.length := by omega
      rw [dif_pos h3]
      by_cases hend : ci + 1 < rawPath.length - 1
      · exact ih (ci + 1) _ (by omega) hend
      · have hc1 : ci + 1 = rawPath.length - 1 := by omega
        rw [smoothLoop, dif_neg (by omega)]
        rw [List.getLast?_concat, hc1]

theorem smoothPath_head (raw : List Point) (obstacles : List Obstacle)
    (hne : raw ≠ []) :
    (smoothPath raw obstacles).head? = raw.head? := by
  by_cases hlen : raw.length ≤ 2
  · rw [smoothPath, if_pos hlen]
  · rw [smoothPath, if_neg hlen]
    have h1 : raw.take 1 ≠ [] := by
      cases raw with
      | nil => exact absurd rfl hne
      | cons a l => simp
    rw [smoothLoop_head obstacles raw raw.length 0 (raw.take 1) (by omega) h1]
    cases raw with
    | nil => exact absurd rfl hne
    | cons a l => rfl

theorem smoothPath_last (raw : List Point) (obstacles : List Obstacle)
    (h2 : 2 ≤ raw.length) :
    (smoothPath raw obstacles).getLast? = raw.getLast? := by
  by_cases hlen : raw.length ≤ 2
  · rw [smoothPath, if_pos hlen]
  · rw [smoothPath, if_neg hlen]
    rw [smoothLoop_last obstacles raw raw.length 0 (raw.take 1) (by omega) (by omega)]
    rw [List.getLast?_eq_get?, List.getD_eq_get?]
    cases hq : raw.get? (raw.length - 1) with
    | none =>
      have := List.get?_eq_none.mp hq
      omega
    | some x =>
      rfl

theorem reconstructPath_head (cm : Cell → Option Cell) (fuel : ℕ) (ck : Cell)
    (sx sy tx ty : ℚ) :
    (reconstructPath cm fuel ck sx sy tx ty).head? = some (sx, sy) := rfl

theorem reconstructPath_last (cm : Cell → Option Cell) (fuel : ℕ) (ck : Cell)
    (sx sy tx ty : ℚ) :
    (reconstructPath cm fuel ck sx sy tx ty).getLast? = some (tx, ty) := by
  unfold reconstructPath
  exact List.getLast?_concat _

theorem reconstructPath_length (cm : Cell → Option Cell) (fuel : ℕ) (ck : Cell)
    (sx sy tx ty : ℚ) :
    2 ≤ (reconstructPath cm fuel ck sx sy tx ty).length := by
  unfold reconstructPath
  rw [List.length_append, List.length_cons]
  simp


/-- C1, amended: findPath returns null exactly when the start tile or the
target tile is blocked or no corner-rule-respecting 8-connected route joins
them (plain 8-connected reachability is not enough); every non-null result
starts at the exact start point; when start and target share a tile the
result is the start point followed by the tile center (not the exact
target); otherwise the last waypoint is the exact target point. -/
theorem C1_findPath_characterization :
    ∀ (cfg : Config) (sx sy tx ty : ℚ),
      (findPath cfg sx sy tx ty = none ↔
        isBlocked cfg (tileOf sx sy) = true ∨ isBlocked cfg (tileOf tx ty) = true ∨
        ¬ ReachableCorner cfg (tileOf sx sy) (tileOf tx ty)) ∧
      (∀ p, findPath cfg sx sy tx ty = some p →
        p.head? = some (sx, sy) ∧
        (tileOf sx sy = tileOf tx ty → p = [(sx, sy), tileCenter (tileOf tx ty)]) ∧
        (tileOf sx sy ≠ tileOf tx ty → p.getLast? = some (tx, ty))) := by
  intro cfg sx sy tx ty
  by_cases hbs : isBlocked cfg (tileOf sx sy) = true
  · have hfp : findPath cfg sx sy tx ty = none := by
      unfold findPath
      simp [hbs]
    constructor
    · exact ⟨fun _ => Or.inl hbs, fun _ => hfp⟩
    · intro p hp
      rw [hfp] at hp
      exact Option.noConfusion hp
  · have hs : isBlocked cfg (tileOf sx sy) = false := Bool.eq_false_iff.mpr hbs
    by_cases hbt : isBlocked cfg (tileOf tx ty) = true
    · have hfp : findPath cfg sx sy tx ty = none := by
        unfold findPath
        simp [hs, hbt]
      constructor
      · exact ⟨fun _ => Or.inr (Or.inl hbt), fun _ => hfp⟩
      · intro p hp
        rw [hfp] at hp
        exact Option.noConfusion hp
    · have ht : isBlocked cfg (tileOf tx ty) = false := Bool.eq_false_iff.mpr hbt
      by_cases hst : tileOf sx sy = tileOf tx ty
      · have hfp : findPath cfg sx sy tx ty =
            some [(sx, sy), tileCenter (tileOf tx ty)] := by
          unfold findPath
          simp [hs, ht, hst]
        constructor
        · constructor
          · intro h
            rw [hfp] at h
            exact Option.noConfusion h
          · intro hor
            exfalso
            rcases hor with h | h | h
            · rw [hs] at h
              exact Bool.noConfusion h
            · rw [ht] at h
              exact Bool.noConfusion h
            · refine h ⟨[tileOf sx sy], ?_⟩
              rw [← hst]
              exact validRoute_single cfg _ hs
        · intro p hp
          rw [hfp] at hp
          have hpe := Option.some.inj hp
          subst hpe
          exact ⟨rfl, fun _ => rfl, fun hne => absurd hst hne⟩
      · obtain ⟨hex, hfailiff, hfound⟩ :=
          astar_main cfg (tileOf sx sy) (tileOf tx ty) hs hst
        cases hout : astarLoop cfg (tileOf tx ty) (searchFuel cfg)
            (initState (tileOf sx sy) (tileOf tx ty)) with
        | found cm =>
          have hreach : ReachableCorner cfg (tileOf sx sy) (tileOf tx ty) := by
            obtain ⟨hroute, -⟩ := hfound cm hout
            exact ⟨_, hroute⟩
          have hfp : findPath cfg sx sy tx ty = some (smoothPath
              (reconstructPath cm (searchFuel cfg) (tileOf tx ty) sx sy tx ty)
              cfg.obstacles) := by
            unfold findPath
            simp [hs, ht, hst, hout]
          constructor
          · constructor
            · intro h
              rw [hfp] at h
              exact Option.noConfusion h
            · intro hor
              exfalso
              rcases hor with h | h | h
              · rw [hs] at h
                exact Bool.noConfusion h
              · rw [ht] at h
                exact Bool.noConfusion h
              · exact h hreach
          · intro p hp
            rw [hfp] at hp
            have hpe := Option.some.inj hp
            subst hpe
            have hlen := reconstructPath_length cm (searchFuel cfg) (tileOf tx ty)
              sx sy tx ty
            have hrawne : reconstructPath cm (searchFuel cfg) (tileOf tx ty)
                sx sy tx ty ≠ [] := by
              intro h
              rw [h] at hlen
              simp at hlen
            refine ⟨?_, fun he => absurd he hst, fun _ => ?_⟩
            · rw [smoothPath_head _ _ hrawne, reconstructPath_head]
            · rw [smoothPath_last _ _ hlen, reconstructPath_last]
        | failed =>
          have hnr : ¬ ReachableCorner cfg (tileOf sx sy) (tileOf tx ty) :=
            hfailiff.mp hout
          have hfp : findPath cfg sx sy tx ty = none := by
            unfold findPath
            simp [hs, ht, hst, hout]
          constructor
          · exact ⟨fun _ => Or.inr (Or.inr hnr), fun _ => hfp⟩
          · intro p hp
            rw [hfp] at hp
            exact Option.noConfusion hp
        | exhausted => exact absurd hout hex

end RTS
